import Mathlib

/-!
Shallow embedding of the Filler move chooser (Rust sources under src/):
the placement validator (src/placement.rs), the flood-fill and heuristic
analyzers (src/ai/heuristics.rs), the strategy selectors
(src/ai/strategies.rs, src/ai/advanced_strategies.rs, src/ai/evaluator.rs,
src/ai/mod.rs) and the batch cache (src/ai/optimization.rs).

Modelling conventions:
* usize is modelled by Nat; the only places where usize wrap-around is
  observable (wrapping_add / wrapping_sub in neighbour generation, and
  i32/usize casts in count_nearby_our_territory) are modelled explicitly
  with the 64-bit modulus.
* f32 scores are modelled as exact rationals; every literal occurring in
  the sources (10.0, 2.5, 1.5, 1.2, 0.8, 0.5, 3.0, 2.0, 1.8, 5.0) is kept.
* HashSet / HashMap are modelled by lists with explicit
  membership-checked insertion; VecDeque by a list used as a FIFO queue.
* Rust Result is modelled by Except; Option by Option.
-/

namespace Filler

/-- Largest usize value on the 64-bit target. -/
def USIZE_MAX : Nat := 2 ^ 64 - 1

/-- usize wrapping_sub by 1 (wrapping_sub(1) in the Rust sources). -/
def wrapSub1 (n : Nat) : Nat := if n = 0 then USIZE_MAX else n - 1

/-- usize wrapping_add of 1 (wrapping_add(1) in the Rust sources). -/
def wrapAdd1 (n : Nat) : Nat := if n = USIZE_MAX then 0 else n + 1

/-- Cell states of the Anfield grid (src/game_state.rs, enum CellState). -/
inductive CellState where
  | Empty
  | Player1
  | Player2
  | Player1Last
  | Player2Last
deriving DecidableEq, Repr

/-- A position on the grid (src/game_state.rs, struct Position). -/
structure Position where
  x : Nat
  y : Nat
deriving DecidableEq, Repr

/-- The Anfield grid (src/game_state.rs, struct Grid).  The Rust code
maintains cells as a height-by-width matrix and usize dimensions; these
invariants are carried as proof fields. -/
structure Grid where
  width : Nat
  height : Nat
  cells : List (List CellState)
  hrows : cells.length = height
  hcols : ∀ r ∈ cells, r.length = width
  hwidth : width < 2 ^ 64
  hheight : height < 2 ^ 64

/-- Grid::is_valid: bounds check. -/
def Grid.is_valid (g : Grid) (p : Position) : Bool :=
  decide (p.x < g.width) && decide (p.y < g.height)

/-- Grid::get: cell lookup guarded by the bounds check. -/
def Grid.get (g : Grid) (p : Position) : Option CellState :=
  if g.is_valid p then some ((g.cells.getD p.y []).getD p.x CellState.Empty)
  else none

/-- Grid::set: in-bounds write (the Rust method also returns a Bool success
flag, unused by the callers modelled here). -/
def Grid.set (g : Grid) (p : Position) (s : CellState) : Grid :=
  if h : p.x < g.width ∧ p.y < g.height then
    { width := g.width
      height := g.height
      cells := g.cells.set p.y ((g.cells.getD p.y []).set p.x s)
      hrows := by rw [List.length_set]; exact g.hrows
      hcols := by
        intro r hr
        rcases List.mem_or_eq_of_mem_set hr with hmem | heq
        · exact g.hcols r hmem
        · subst heq
          rw [List.length_set]
          have hy : p.y < g.cells.length := by rw [g.hrows]; exact h.2
          rw [List.getD_eq_getElem _ _ hy]
          exact g.hcols _ (List.getElem_mem hy)
      hwidth := g.hwidth
      hheight := g.hheight }
  else g

/-- A piece shape (src/game_state.rs, struct Shape). -/
structure Shape where
  width : Nat
  height : Nat
  cells : List (List Bool)
  hrows : cells.length = height
  hcols : ∀ r ∈ cells, r.length = width

/-- Shape::get_filled_positions: filled cells in row-major order. -/
def Shape.get_filled_positions (s : Shape) : List Position :=
  (List.range s.height).flatMap (fun y =>
    (List.range s.width).filterMap (fun x =>
      if (s.cells.getD y []).getD x false then some ⟨x, y⟩ else none))

/-- Shape::is_empty. -/
def Shape.is_empty (s : Shape) : Bool :=
  s.get_filled_positions.isEmpty

/-- The complete game state (src/game_state.rs, struct GameState);
player_number is a u8 in Rust. -/
structure GameState where
  player_number : Nat
  grid : Grid
  current_piece : Shape

/-- A candidate placement (src/placement.rs, struct Placement). -/
structure Placement where
  position : Position
  shape : Shape
  cells_added : Nat
  territory_touches : Nat

/-- Free function get_absolute_positions of src/placement.rs.  In Rust it
returns a Result but never produces an error; the usize additions stay in
the unwrapped range for every input considered here. -/
def get_absolute_positions (base_pos : Position) (shape : Shape) : List Position :=
  shape.get_filled_positions.map (fun p => ⟨base_pos.x + p.x, base_pos.y + p.y⟩)

/-- Placement::get_absolute_positions. -/
def Placement.get_absolute_positions (pl : Placement) : List Position :=
  pl.shape.get_filled_positions.map (fun p => ⟨pl.position.x + p.x, pl.position.y + p.y⟩)

/-- Placement errors (src/placement.rs, enum PlacementError). -/
inductive PlacementError where
  | OutOfBounds
  | CollisionWithOpponent
  | CollisionWithSelf
  | NoTerritoryContact
  | MultipleContacts
  | EmptyShape
deriving DecidableEq, Repr

/-- The cell-scanning for-loop inside validate_placement: walks the
absolute positions, short-circuits on OutOfBounds and
CollisionWithOpponent, and otherwise counts own-territory touches. -/
def scanTouches (gs : GameState) : List Position → Except PlacementError Nat
  | [] => .ok 0
  | pos :: rest =>
    match gs.grid.get pos with
    | none => .error .OutOfBounds
    | some CellState.Empty => scanTouches gs rest
    | some CellState.Player1 | some CellState.Player1Last =>
        if gs.player_number = 1 then Except.map (· + 1) (scanTouches gs rest)
        else .error .CollisionWithOpponent
    | some CellState.Player2 | some CellState.Player2Last =>
        if gs.player_number = 2 then Except.map (· + 1) (scanTouches gs rest)
        else .error .CollisionWithOpponent

/-- validate_placement (src/placement.rs). -/
def validate_placement (gs : GameState) (placement_pos : Position) :
    Except PlacementError Placement :=
  let shape := gs.current_piece
  if shape.is_empty then .error .EmptyShape
  else
    let absolute_positions := get_absolute_positions placement_pos shape
    match scanTouches gs absolute_positions with
    | .error e => .error e
    | .ok territory_touches =>
      match territory_touches with
      | 0 => .error .NoTerritoryContact
      | 1 => .ok { position := placement_pos
                   shape := shape
                   cells_added := absolute_positions.length - 1
                   territory_touches := 1 }
      | _ => .error .MultipleContacts

/-- Specification-level predicate: the cell belongs to the acting player,
following the match arms of validate_placement. -/
def own_cell (n : Nat) (c : CellState) : Bool :=
  match c with
  | .Empty => false
  | .Player1 | .Player1Last => decide (n = 1)
  | .Player2 | .Player2Last => decide (n = 2)

/-- Specification-level predicate: the cell belongs to the opponent
(a non-empty cell that is not the acting player's). -/
def opp_cell (n : Nat) (c : CellState) : Bool :=
  match c with
  | .Empty => false
  | .Player1 | .Player1Last => decide (n ≠ 1)
  | .Player2 | .Player2Last => decide (n ≠ 2)

/-- Own-territory test at a board position, none counting as false. -/
def ownAt (gs : GameState) (p : Position) : Bool :=
  match gs.grid.get p with
  | some c => own_cell gs.player_number c
  | none => false

/-- Opponent-territory test at a board position, none counting as false. -/
def oppAt (gs : GameState) (p : Position) : Bool :=
  match gs.grid.get p with
  | some c => opp_cell gs.player_number c
  | none => false

/-! Flood-fill analysis (src/ai/heuristics.rs). -/

/-- The four neighbour candidates generated in flood_fill_reachable,
count_opponent_neighbors and flood_fill_bounded, in source order:
right, left (wrapping), down, up (wrapping). -/
def nbrs (p : Position) : List Position :=
  [⟨wrapAdd1 p.x, p.y⟩, ⟨wrapSub1 p.x, p.y⟩, ⟨p.x, wrapAdd1 p.y⟩, ⟨p.x, wrapSub1 p.y⟩]

/-- Passability test of the breadth-first traversal: the matches! check of
flood_fill_reachable (Empty, Player1 or Player1Last). -/
def passable (c : CellState) : Bool :=
  match c with
  | .Empty | .Player1 | .Player1Last => true
  | _ => false

/-- Passability at a board position, out of bounds counting as blocked. -/
def passableAt (g : Grid) (p : Position) : Bool :=
  match g.get p with
  | some c => passable c
  | none => false

/-- Test for an empty cell at a board position. -/
def emptyAt (g : Grid) (p : Position) : Bool :=
  decide (g.get p = some CellState.Empty)

/-- One neighbour step of the traversal loop body: state is
(visited set, queue additions, reachable count). -/
def visitNeighbor (g : Grid) (st : List Position × List Position × Nat)
    (neighbor : Position) : List Position × List Position × Nat :=
  if !st.1.contains neighbor && g.is_valid neighbor then
    match g.get neighbor with
    | some state =>
        if passable state then
          (neighbor :: st.1,
           if state = CellState.Empty then st.2.1 ++ [neighbor] else st.2.1,
           if state = CellState.Empty then st.2.2 + 1 else st.2.2)
        else st
    | none => st
  else st

/-- The while-let loop shared by flood_fill_reachable and
flood_fill_bounded, with the remaining iteration budget made explicit
(flood_fill_bounded breaks after a pop once the budget is exhausted;
for flood_fill_reachable the budget is provably never exhausted).
Returns the reachable count together with the final visited set. -/
def ffLoop (g : Grid) : Nat → List Position → List Position → Nat →
    Nat × List Position
  | _, [], visited, count => (count, visited)
  | 0, _ :: _, visited, count => (count, visited)
  | fuel + 1, pos :: rest, visited, count =>
      let st := (nbrs pos).foldl (visitNeighbor g) (visited, [], count)
      ffLoop g fuel (rest ++ st.2.1) st.1 st.2.2

/-- Queue and visited-set initialisation of both flood fills: every valid
start position is pushed onto the queue and inserted into the visited
set (the HashSet insertion deduplicates). -/
def ffInit (g : Grid) (start_positions : List Position) :
    List Position × List Position :=
  start_positions.foldl
    (fun qv p =>
      if g.is_valid p then
        (qv.1 ++ [p], if qv.2.contains p then qv.2 else p :: qv.2)
      else qv)
    ([], [])

/-- flood_fill_bounded (src/ai/optimization.rs): the same traversal with
an early-termination budget. -/
def flood_fill_bounded (g : Grid) (start_positions : List Position)
    (max_iterations : Nat) : Nat :=
  (ffLoop g max_iterations (ffInit g start_positions).1
    (ffInit g start_positions).2 0).1

/-- Iteration budget that provably exceeds the number of loop iterations
of the unbounded traversal (theorem ffLoop_stable below), so that running
with this budget is the unbounded while-let loop of the Rust source. -/
def ffRun (g : Grid) (start_positions : List Position) : Nat × List Position :=
  ffLoop g (start_positions.length + g.width * g.height)
    (ffInit g start_positions).1 (ffInit g start_positions).2 0

/-- flood_fill_reachable (src/ai/heuristics.rs). -/
def flood_fill_reachable (g : Grid) (start_positions : List Position) : Nat :=
  (ffRun g start_positions).1

/-- The final visited set of flood_fill_reachable (the HashSet of the
Rust source, modelled as a duplicate-free list). -/
def flood_fill_visited (g : Grid) (start_positions : List Position) :
    List Position :=
  (ffRun g start_positions).2

/-- The marking loop of analyze_flood_fill: every valid covered position
of the cloned grid is overwritten with Player1Last. -/
def markPositions (g : Grid) (ps : List Position) : Grid :=
  ps.foldl (fun tg pos => if tg.is_valid pos then tg.set pos CellState.Player1Last else tg) g

/-- analyze_flood_fill (src/ai/heuristics.rs): f32 scores are modelled as
exact rationals. -/
def analyze_flood_fill (placement : Placement) (game_state : GameState) : ℚ :=
  let test_grid := markPositions game_state.grid placement.get_absolute_positions
  let reachable := flood_fill_reachable test_grid placement.get_absolute_positions
  (reachable : ℚ) * 2.5

/-- count_opponent_neighbors (src/ai/heuristics.rs): player-2 cells among
the four neighbours. -/
def count_opponent_neighbors (g : Grid) (pos : Position) : Nat :=
  ((nbrs pos).filter (fun neighbor =>
    g.is_valid neighbor &&
      match g.get neighbor with
      | some CellState.Player2 | some CellState.Player2Last => true
      | _ => false)).length

/-- detect_weak_positions (src/ai/heuristics.rs). -/
def detect_weak_positions (placement : Placement) (game_state : GameState) : ℚ :=
  placement.get_absolute_positions.foldl
    (fun weak_score pos =>
      if game_state.grid.is_valid pos then
        let opponent_density := count_opponent_neighbors game_state.grid pos
        if opponent_density < 2 then weak_score + 3.0
        else if opponent_density < 4 then weak_score + 1.5
        else weak_score
      else weak_score)
    0.0

/-- The (center as i32 + delta) as usize pattern of
count_nearby_our_territory, for 64-bit usize. -/
def castAdd (c : Nat) (d : Int) : Nat :=
  ((((c : Int) + d) % (2 ^ 64 : Int))).toNat

/-- Delta range -2..=2 of count_nearby_our_territory, in loop order. -/
def deltaList : List Int := [-2, -1, 0, 1, 2]

/-- The dx, dy nested loops of count_nearby_our_territory. -/
def deltaPairs : List (Int × Int) :=
  deltaList.flatMap (fun dx => deltaList.map (fun dy => (dx, dy)))

/-- count_nearby_our_territory (src/ai/heuristics.rs): player-1 cells at
offsets dx, dy ∈ [-2, 2], excluding the center. -/
def count_nearby_our_territory (g : Grid) (center : Position) : Nat :=
  deltaPairs.countP
    (fun (d : Int × Int) =>
      if d.1 = 0 ∧ d.2 = 0 then false
      else
        let pos : Position := ⟨castAdd center.x d.1, castAdd center.y d.2⟩
        g.is_valid pos &&
          (match g.get pos with
           | some CellState.Player1 | some CellState.Player1Last => true
           | _ => false))

/-- analyze_density (src/ai/heuristics.rs): per-cell counts weighted by
0.8 and averaged over the valid covered cells. -/
def analyze_density (placement : Placement) (game_state : GameState) : ℚ :=
  let acc := placement.get_absolute_positions.foldl
    (fun (acc : ℚ × Nat) pos =>
      if game_state.grid.is_valid pos then
        let nearby_our_territory := count_nearby_our_territory game_state.grid pos
        (acc.1 + (nearby_our_territory : ℚ) * 0.8, acc.2 + 1)
      else acc)
    (0.0, 0)
  if acc.2 > 0 then acc.1 / (acc.2 : ℚ) else 0.0

/-- analyze_edge_control (src/ai/heuristics.rs). -/
def analyze_edge_control (placement : Placement) (grid : Grid) : ℚ :=
  placement.get_absolute_positions.foldl
    (fun edge_score pos =>
      if grid.is_valid pos then
        let is_corner := (pos.x = 0 ∨ pos.x = grid.width - 1) ∧
                         (pos.y = 0 ∨ pos.y = grid.height - 1)
        let is_edge := pos.x = 0 ∨ pos.x = grid.width - 1 ∨
                       pos.y = 0 ∨ pos.y = grid.height - 1
        if is_corner then edge_score + 2.0
        else if is_edge then edge_score + 1.0
        else edge_score
      else edge_score)
    0.0

/-- advanced_score (src/ai/heuristics.rs). -/
def advanced_score (placement : Placement) (game_state : GameState) : ℚ :=
  let base_expansion := (placement.cells_added : ℚ) * 10.0
  let flood_fill := analyze_flood_fill placement game_state
  let weak_positions := detect_weak_positions placement game_state
  let density := analyze_density placement game_state
  let edge_control := analyze_edge_control placement game_state.grid
  base_expansion + flood_fill * 1.5 + weak_positions * 2.0 + density * 1.2 +
    edge_control * 0.5

/-! Strategy selectors (src/ai/strategies.rs, src/ai/evaluator.rs,
src/ai/advanced_strategies.rs, src/ai/mod.rs). -/

/-- Semantics of Iterator::max_by and Iterator::max_by_key of the Rust
standard library, used by every non-Evaluator strategy: when several
elements are equally maximum, the last one is returned. -/
def rustMaxBy {α β : Type} [LinearOrder β] (score : α → β) :
    List α → Option α
  | [] => none
  | x :: xs => some (xs.foldl (fun acc y => if score y < score acc then acc else y) x)

/-- greedy_expansion (src/ai/strategies.rs). -/
def greedy_expansion (placements : List Placement) : Option Placement :=
  if placements.isEmpty then none
  else rustMaxBy (fun p => p.cells_added) placements

/-- balanced (src/ai/strategies.rs): score (cells_added * 2) +
territory_touches. -/
def balanced (placements : List Placement) : Option Placement :=
  if placements.isEmpty then none
  else rustMaxBy (fun p => p.cells_added * 2 + p.territory_touches) placements

/-- manhattan_distance (src/utils.rs). -/
def manhattan_distance (a b : Position) : Nat :=
  ((a.x : Int) - (b.x : Int)).natAbs + ((a.y : Int) - (b.y : Int)).natAbs

/-- evaluate_placement (src/ai/evaluator.rs). -/
def evaluate_placement (placement : Placement) (game_state : GameState) : ℚ :=
  let expansion_score := (placement.cells_added : ℚ) * 10.0
  let center_x := (game_state.grid.width : Int) / 2
  let center_y := (game_state.grid.height : Int) / 2
  let distance_to_center := manhattan_distance placement.position
    ⟨center_x.toNat, center_y.toNat⟩
  let centrality_bonus : ℚ :=
    if distance_to_center < 15 then ((15 - distance_to_center : Nat) : ℚ) * 0.5
    else 0.0
  let adjacency_bonus := (placement.territory_touches : ℚ) * 1.0
  expansion_score + centrality_bonus + adjacency_bonus

/-- Stable insertion into a list kept in non-increasing score order: the
new element goes after every element whose score is at least its own. -/
def insertDesc {α : Type} (score : α → ℚ) (x : α) : List α → List α
  | [] => [x]
  | y :: ys => if score x ≤ score y then y :: insertDesc score x ys
               else x :: y :: ys

/-- Stable sort into non-increasing score order: the model of Rust's
stable slice::sort_by with the descending comparator of rank_placements
(ties keep their input order). -/
def sortDesc {α : Type} (score : α → ℚ) (l : List α) : List α :=
  l.foldl (fun acc x => insertDesc score x acc) []

/-- rank_placements (src/ai/evaluator.rs): score then sort descending. -/
def rank_placements (placements : List Placement) (game_state : GameState) :
    List (Placement × ℚ) :=
  sortDesc (fun pq => pq.2)
    (placements.map (fun p => (p, evaluate_placement p game_state)))

/-- select_best_placement (src/ai/evaluator.rs). -/
def select_best_placement (placements : List Placement)
    (game_state : GameState) : Option Placement :=
  if placements.isEmpty then none
  else (rank_placements placements game_state).head?.map (fun pq => pq.1)

/-- aggressive_expansion (src/ai/advanced_strategies.rs). -/
def aggressive_expansion (placements : List Placement)
    (game_state : GameState) : Option Placement :=
  if placements.isEmpty then none
  else rustMaxBy (fun p => (p.cells_added : ℚ) * 10.0 +
    analyze_flood_fill p game_state * 2.0) placements

/-- opportunistic (src/ai/advanced_strategies.rs). -/
def opportunistic (placements : List Placement)
    (game_state : GameState) : Option Placement :=
  if placements.isEmpty then none
  else rustMaxBy (fun p => detect_weak_positions p game_state * 2.5 +
    (p.cells_added : ℚ) * 5.0) placements

/-- defensive (src/ai/advanced_strategies.rs). -/
def defensive (placements : List Placement)
    (game_state : GameState) : Option Placement :=
  if placements.isEmpty then none
  else rustMaxBy (fun p => analyze_density p game_state * 2.0 +
    (p.territory_touches : ℚ) * 2.0 +
    analyze_edge_control p game_state.grid * 1.5) placements

/-- strategic_blocking (src/ai/advanced_strategies.rs). -/
def strategic_blocking (placements : List Placement)
    (game_state : GameState) : Option Placement :=
  if placements.isEmpty then none
  else rustMaxBy (fun p => detect_weak_positions p game_state * 1.8 +
    (p.territory_touches : ℚ) * 3.0 +
    (p.cells_added : ℚ) * 3.0) placements

/-- advanced_balanced (src/ai/advanced_strategies.rs). -/
def advanced_balanced (placements : List Placement)
    (game_state : GameState) : Option Placement :=
  if placements.isEmpty then none
  else rustMaxBy (fun p => advanced_score p game_state) placements

/-- territorial_control (src/ai/advanced_strategies.rs). -/
def territorial_control (placements : List Placement)
    (game_state : GameState) : Option Placement :=
  if placements.isEmpty then none
  else rustMaxBy (fun p => (p.cells_added : ℚ) * 8.0 +
    analyze_flood_fill p game_state * 1.5 +
    (p.territory_touches : ℚ) * 1.5 +
    analyze_edge_control p game_state.grid * 0.8) placements

/-- Strategy enumeration (src/ai/mod.rs, enum AIStrategy). -/
inductive AIStrategy where
  | GreedyExpansion
  | Balanced
  | Evaluator
  | Default
  | AggressiveExpansion
  | Opportunistic
  | Defensive
  | StrategicBlocking
  | AdvancedBalanced
  | TerritorialControl
deriving DecidableEq, Repr

/-- select_move (src/ai/mod.rs). -/
def select_move (placements : List Placement) (game_state : GameState)
    (strategy : AIStrategy) : Option Placement :=
  match strategy with
  | .GreedyExpansion => greedy_expansion placements
  | .Balanced => balanced placements
  | .Evaluator => select_best_placement placements game_state
  | .AggressiveExpansion => aggressive_expansion placements game_state
  | .Opportunistic => opportunistic placements game_state
  | .Defensive => defensive placements game_state
  | .StrategicBlocking => strategic_blocking placements game_state
  | .AdvancedBalanced => advanced_balanced placements game_state
  | .TerritorialControl => territorial_control placements game_state
  | .Default => advanced_balanced placements game_state

/-! Batch cache (src/ai/optimization.rs). -/

/-- FloodFillCache (src/ai/optimization.rs): the HashMap is modelled as
an association list where insertion prepends. -/
structure FloodFillCache where
  cache : List ((Nat × Nat) × Nat)

/-- FloodFillCache::new. -/
def FloodFillCache.new : FloodFillCache := ⟨[]⟩

/-- HashMap::get on the association-list model. -/
def FloodFillCache.lookup (c : FloodFillCache) (pos : Nat × Nat) : Option Nat :=
  (c.cache.find? (fun e => e.1 = pos)).map (fun e => e.2)

/-- FloodFillCache::get_or_compute: return the cached value, or invoke
the compute closure, cache its result and return it. -/
def FloodFillCache.get_or_compute (c : FloodFillCache) (pos : Nat × Nat)
    (compute : Unit → Nat) : Nat × FloodFillCache :=
  match c.lookup pos with
  | some result => (result, c)
  | none =>
      let result := compute ()
      (result, ⟨(pos, result) :: c.cache⟩)

/-- FloodFillCache::clear. -/
def FloodFillCache.clear (_ : FloodFillCache) : FloodFillCache := ⟨[]⟩

/-! Specification-level definitions used to state the claims. -/

/-- All grid positions, row by row. -/
def allPositions (g : Grid) : List Position :=
  (List.range g.height).flatMap (fun y =>
    (List.range g.width).map (fun x => ⟨x, y⟩))

/-- Cells the breadth-first traversal expands from: the start positions
themselves (always dequeued) and empty cells (the only cells re-queued). -/
def expandable (g : Grid) (seeds : List Position) (p : Position) : Prop :=
  p ∈ seeds ∨ g.get p = some CellState.Empty

/-- Reachability relation realised by the traversal: a start position, or
an empty valid neighbour of a reachable cell. -/
inductive Expanded (g : Grid) (seeds : List Position) : Position → Prop where
  | seed (p : Position) : p ∈ seeds → g.is_valid p = true → Expanded g seeds p
  | step (p q : Position) : Expanded g seeds p → q ∈ nbrs p →
      g.is_valid q = true → g.get q = some CellState.Empty → Expanded g seeds q

/-- Player-1 territory test (the hard-coded own-territory test of
src/ai/heuristics.rs). -/
def p1At (g : Grid) (q : Position) : Bool :=
  match g.get q with
  | some CellState.Player1 | some CellState.Player1Last => true
  | _ => false

/-- Number of player-1 territory cells within Chebyshev distance 2 of the
center (the 5-by-5 square excluding the center). -/
def chebNearbyP1 (g : Grid) (center : Position) : Nat :=
  ((allPositions g).filter (fun q =>
    decide (q ≠ center) &&
    decide (max (Nat.dist q.x center.x) (Nat.dist q.y center.y) ≤ 2) &&
    p1At g q)).length

/-- The density analyzer as claimed by the specification: the plain
average, over the covered cells, of the number of the acting player's
own-territory cells within Manhattan distance 2 of the covered cell. -/
def density_spec_claim (pl : Placement) (gs : GameState) : ℚ :=
  let covered := pl.get_absolute_positions
  if covered.length = 0 then 0
  else ((covered.map (fun p =>
    ((((allPositions gs.grid).filter (fun q =>
        decide (q ≠ p) && decide (manhattan_distance q p ≤ 2) && ownAt gs q)).length : Nat) : ℚ))).sum) /
    (covered.length : ℚ)

/-- The scalar score maximised by each strategy of select_move; for the
two integer-keyed strategies the key is cast to the rationals. -/
def score_of (strategy : AIStrategy) (gs : GameState) (p : Placement) : ℚ :=
  match strategy with
  | .GreedyExpansion => (p.cells_added : ℚ)
  | .Balanced => ((p.cells_added * 2 + p.territory_touches : Nat) : ℚ)
  | .Evaluator => evaluate_placement p gs
  | .AggressiveExpansion => (p.cells_added : ℚ) * 10.0 +
      analyze_flood_fill p gs * 2.0
  | .Opportunistic => detect_weak_positions p gs * 2.5 +
      (p.cells_added : ℚ) * 5.0
  | .Defensive => analyze_density p gs * 2.0 +
      (p.territory_touches : ℚ) * 2.0 + analyze_edge_control p gs.grid * 1.5
  | .StrategicBlocking => detect_weak_positions p gs * 1.8 +
      (p.territory_touches : ℚ) * 3.0 + (p.cells_added : ℚ) * 3.0
  | .AdvancedBalanced => advanced_score p gs
  | .TerritorialControl => (p.cells_added : ℚ) * 8.0 +
      analyze_flood_fill p gs * 1.5 + (p.territory_touches : ℚ) * 1.5 +
      analyze_edge_control p gs.grid * 0.8
  | .Default => advanced_score p gs

/-! Concrete fixtures used by witnesses and counterexamples. -/

/-- One-by-one piece covering a single cell. -/
def shape1 : Shape := ⟨1, 1, [[true]], rfl, by decide⟩

/-- Two-by-one horizontal piece. -/
def shape2 : Shape := ⟨2, 1, [[true, true]], rfl, by decide⟩

/-- Three-by-one grid: player-1 territory followed by two empty cells. -/
def g3 : Grid := ⟨3, 1, [[.Player1, .Empty, .Empty]], rfl, by decide, by decide, by decide⟩

/-- Player 1 on g3 holding the one-cell piece. -/
def gsA : GameState := ⟨1, g3, shape1⟩

/-- Player 1 on g3 holding the two-cell piece. -/
def gsB : GameState := ⟨1, g3, shape2⟩

/-- The validated one-cell placement at the origin of g3. -/
def plA : Placement := ⟨⟨0, 0⟩, shape1, 0, 1⟩

/-- The validated two-cell placement at the origin of g3. -/
def plB : Placement := ⟨⟨0, 0⟩, shape2, 1, 1⟩

/-- Three-by-one grid: player 2, then player 1, then an empty cell. -/
def gC3 : Grid := ⟨3, 1, [[.Player2, .Player1, .Empty]], rfl, by decide, by decide, by decide⟩

/-- Player 2 acting on gC3 with the one-cell piece. -/
def gsC3 : GameState := ⟨2, gC3, shape1⟩

/-- The validated placement of player 2 at the origin of gC3. -/
def plC3 : Placement := ⟨⟨0, 0⟩, shape1, 0, 1⟩

/-- Five-by-five grid with player-2 territory at (0,0) and (0,1) and a
player-1 cell at (2,2). -/
def gC5 : Grid := ⟨5, 5,
  [[.Player2, .Empty, .Empty, .Empty, .Empty],
   [.Player2, .Empty, .Empty, .Empty, .Empty],
   [.Empty, .Empty, .Player1, .Empty, .Empty],
   [.Empty, .Empty, .Empty, .Empty, .Empty],
   [.Empty, .Empty, .Empty, .Empty, .Empty]], rfl, by decide, by decide, by decide⟩

/-- Player 2 acting on gC5 with the one-cell piece. -/
def gsC5 : GameState := ⟨2, gC5, shape1⟩

/-- The validated placement of player 2 at the origin of gC5. -/
def plC5 : Placement := ⟨⟨0, 0⟩, shape1, 0, 1⟩

/-- Empty five-by-five grid. -/
def gE : Grid := ⟨5, 5, List.replicate 5 (List.replicate 5 .Empty), rfl, by decide, by decide, by decide⟩

/-- Player 1 on the empty five-by-five grid. -/
def gsE : GameState := ⟨1, gE, shape1⟩

/-- Candidate at (1,2): same evaluator score as e2 by symmetry. -/
def e1 : Placement := ⟨⟨1, 2⟩, shape1, 1, 1⟩

/-- Candidate at (3,2): same evaluator score as e1 by symmetry. -/
def e2 : Placement := ⟨⟨3, 2⟩, shape1, 1, 1⟩

/-- Tie-break fixture, score 7 under balanced (3 cells, 1 touch). -/
def pTieA : Placement := ⟨⟨0, 0⟩, shape1, 3, 1⟩

/-- Tie-break fixture, score 7 under balanced (2 cells, 3 touches). -/
def pTieB : Placement := ⟨⟨4, 4⟩, shape1, 2, 3⟩

/-! Helper lemmas. -/

theorem except_map_eq_ok {ε α β : Type} (fn : α → β) (e : Except ε α) (b : β) :
    Except.map fn e = .ok b ↔ ∃ a, e = .ok a ∧ b = fn a := by
  cases e <;> simp [Except.map, eq_comm]

theorem scanTouches_ok_iff (gs : GameState) : ∀ (ps : List Position) (t : Nat),
    scanTouches gs ps = .ok t ↔
      ((∀ p ∈ ps, (gs.grid.get p).isSome) ∧ (∀ p ∈ ps, oppAt gs p = false) ∧
       t = ps.countP (ownAt gs)) := by
  intro ps
  induction ps with
  | nil =>
    intro t
    simp only [scanTouches, List.countP_nil, List.not_mem_nil,
      false_implies, implies_true, true_and, Except.ok.injEq]
    exact eq_comm
  | cons p rest ih =>
    intro t
    cases hg : gs.grid.get p with
    | none => simp [scanTouches, hg]
    | some c =>
      cases c with
      | Empty =>
        simp [scanTouches, hg, ih, oppAt, ownAt, opp_cell, own_cell,
          List.countP_cons]
      | Player1 =>
        by_cases hn : gs.player_number = 1
        · simp [scanTouches, hg, hn, except_map_eq_ok, ih, oppAt, ownAt,
            opp_cell, own_cell, List.countP_cons]
          constructor
          · rintro ⟨a, ⟨h1, h2, h3⟩, h4⟩; exact ⟨h1, h2, by omega⟩
          · rintro ⟨h1, h2, h3⟩; exact ⟨rest.countP (ownAt gs), ⟨h1, h2, rfl⟩, by omega⟩
        · simp [scanTouches, hg, hn, oppAt, opp_cell]
      | Player1Last =>
        by_cases hn : gs.player_number = 1
        · simp [scanTouches, hg, hn, except_map_eq_ok, ih, oppAt, ownAt,
            opp_cell, own_cell, List.countP_cons]
          constructor
          · rintro ⟨a, ⟨h1, h2, h3⟩, h4⟩; exact ⟨h1, h2, by omega⟩
          · rintro ⟨h1, h2, h3⟩; exact ⟨rest.countP (ownAt gs), ⟨h1, h2, rfl⟩, by omega⟩
        · simp [scanTouches, hg, hn, oppAt, opp_cell]
      | Player2 =>
        by_cases hn : gs.player_number = 2
        · simp [scanTouches, hg, hn, except_map_eq_ok, ih, oppAt, ownAt,
            opp_cell, own_cell, List.countP_cons]
          constructor
          · rintro ⟨a, ⟨h1, h2, h3⟩, h4⟩; exact ⟨h1, h2, by omega⟩
          · rintro ⟨h1, h2, h3⟩; exact ⟨rest.countP (ownAt gs), ⟨h1, h2, rfl⟩, by omega⟩
        · simp [scanTouches, hg, hn, oppAt, opp_cell]
      | Player2Last =>
        by_cases hn : gs.player_number = 2
        · simp [scanTouches, hg, hn, except_map_eq_ok, ih, oppAt, ownAt,
            opp_cell, own_cell, List.countP_cons]
          constructor
          · rintro ⟨a, ⟨h1, h2, h3⟩, h4⟩; exact ⟨h1, h2, by omega⟩
          · rintro ⟨h1, h2, h3⟩; exact ⟨rest.countP (ownAt gs), ⟨h1, h2, rfl⟩, by omega⟩
        · simp [scanTouches, hg, hn, oppAt, opp_cell]

theorem except_map_eq_error {ε α β : Type} (fn : α → β) (e : Except ε α)
    (err : ε) : Except.map fn e = .error err ↔ e = .error err := by
  cases e <;> simp [Except.map]

theorem scanTouches_error_cases (gs : GameState) : ∀ (ps : List Position)
    (e : PlacementError), scanTouches gs ps = .error e →
    e = .OutOfBounds ∨ e = .CollisionWithOpponent := by
  intro ps
  induction ps with
  | nil => intro e h; simp [scanTouches] at h
  | cons p rest ih =>
    intro e h
    cases hg : gs.grid.get p with
    | none =>
      simp only [scanTouches, hg] at h
      exact Or.inl (by simpa using h.symm)
    | some c =>
      cases c
      · simp only [scanTouches, hg] at h
        exact ih e h
      all_goals
        simp only [scanTouches, hg] at h
        split at h
        · rw [except_map_eq_error] at h
          exact ih e h
        · exact Or.inr (by simpa using h.symm)

theorem validate_placement_eq_ok (gs : GameState) (pos : Position)
    (pl : Placement) :
    validate_placement gs pos = .ok pl ↔
      (gs.current_piece.is_empty = false ∧
       scanTouches gs (get_absolute_positions pos gs.current_piece) = .ok 1 ∧
       pl = ⟨pos, gs.current_piece,
         (get_absolute_positions pos gs.current_piece).length - 1, 1⟩) := by
  constructor
  · intro h
    simp only [validate_placement] at h
    rcases hse : gs.current_piece.is_empty
    · rw [hse] at h
      simp only [Bool.false_eq_true, if_false] at h
      rcases hs : scanTouches gs (get_absolute_positions pos gs.current_piece)
        with e | t
      · rw [hs] at h; exact absurd h (by simp)
      · rw [hs] at h
        match t with
        | 0 => exact absurd h (by simp)
        | 1 => exact ⟨rfl, rfl, (Except.ok.inj h).symm⟩
        | n + 2 => exact absurd h (by simp)
    · rw [hse] at h; simp at h
  · rintro ⟨hse, hs, hpl⟩
    simp only [validate_placement, hse, Bool.false_eq_true, if_false]
    rw [hs, hpl]

/-- C1: for every game state with an acting player and every anchor,
validate_placement succeeds exactly when the shape has a filled cell,
every filled cell lands in bounds, none lands on opponent territory and
exactly one lands on own territory; every success carries
territory_touches = 1 and cells_added = filled cell count - 1. -/
theorem validate_placement_ok_characterization (gs : GameState)
    (pos : Position) (hp : gs.player_number = 1 ∨ gs.player_number = 2) :
    ((∃ pl, validate_placement gs pos = .ok pl) ↔
      (gs.current_piece.get_filled_positions ≠ [] ∧
       (∀ p ∈ get_absolute_positions pos gs.current_piece,
         (gs.grid.get p).isSome) ∧
       (∀ p ∈ get_absolute_positions pos gs.current_piece,
         oppAt gs p = false) ∧
       (get_absolute_positions pos gs.current_piece).countP (ownAt gs) = 1)) ∧
    (∀ pl, validate_placement gs pos = .ok pl →
      pl.territory_touches = 1 ∧
      pl.cells_added = gs.current_piece.get_filled_positions.length - 1) := by
  have hlen : (get_absolute_positions pos gs.current_piece).length =
      gs.current_piece.get_filled_positions.length := by
    simp [get_absolute_positions]
  constructor
  · constructor
    · rintro ⟨pl, hpl⟩
      rw [validate_placement_eq_ok] at hpl
      obtain ⟨hse, hscan, _⟩ := hpl
      rw [scanTouches_ok_iff] at hscan
      refine ⟨?_, hscan.1, hscan.2.1, hscan.2.2.symm⟩
      intro hnil
      simp [Shape.is_empty, hnil] at hse
    · rintro ⟨hne, hins, hopp, hcount⟩
      refine ⟨⟨pos, gs.current_piece,
        (get_absolute_positions pos gs.current_piece).length - 1, 1⟩, ?_⟩
      rw [validate_placement_eq_ok]
      refine ⟨?_, ?_, rfl⟩
      · simp [Shape.is_empty, List.isEmpty_iff, hne]
      · rw [scanTouches_ok_iff]; exact ⟨hins, hopp, hcount.symm⟩
  · intro pl hpl
    rw [validate_placement_eq_ok] at hpl
    obtain ⟨_, _, hpl⟩ := hpl
    subst hpl
    exact ⟨rfl, by simp [hlen]⟩

/-- C1 witness: on the three-by-one board of gsA the anchor (1,0) is
accepted. -/
theorem validate_placement_ok_characterization_witness :
    ∃ pl, validate_placement gsA ⟨0, 0⟩ = .ok pl :=
  (validate_placement_ok_characterization gsA ⟨0, 0⟩ (Or.inl rfl)).1.mpr
    (by refine ⟨by decide, ?_, ?_, by decide⟩ <;> decide)

/-- C9: validate_placement never produces CollisionWithSelf; overlapping
own territory at two or more cells is reported as MultipleContacts. -/
theorem validate_placement_no_collision_with_self (gs : GameState)
    (pos : Position) :
    validate_placement gs pos ≠ .error .CollisionWithSelf ∧
    (gs.current_piece.get_filled_positions ≠ [] →
     (∀ p ∈ get_absolute_positions pos gs.current_piece,
       (gs.grid.get p).isSome) →
     (∀ p ∈ get_absolute_positions pos gs.current_piece, oppAt gs p = false) →
     2 ≤ (get_absolute_positions pos gs.current_piece).countP (ownAt gs) →
     validate_placement gs pos = .error .MultipleContacts) := by
  constructor
  · intro h
    simp only [validate_placement] at h
    rcases hse : gs.current_piece.is_empty
    · rw [hse] at h
      simp only [Bool.false_eq_true, if_false] at h
      rcases hs : scanTouches gs (get_absolute_positions pos gs.current_piece)
        with e | t
      · rw [hs] at h
        rcases scanTouches_error_cases gs _ e hs with he | he <;>
          rw [he] at h <;> simp at h
      · rw [hs] at h
        match t with
        | 0 => simp at h
        | 1 => simp at h
        | n + 2 => simp at h
    · rw [hse] at h; simp at h
  · intro hne hins hopp hcount
    have hscan : scanTouches gs (get_absolute_positions pos gs.current_piece) =
        .ok ((get_absolute_positions pos gs.current_piece).countP (ownAt gs)) := by
      rw [scanTouches_ok_iff]; exact ⟨hins, hopp, rfl⟩
    have hse : gs.current_piece.is_empty = false := by
      simp [Shape.is_empty, List.isEmpty_iff, hne]
    simp only [validate_placement, hse, Bool.false_eq_true, if_false]
    rw [hscan]
    rcases hc : (get_absolute_positions pos gs.current_piece).countP (ownAt gs)
      with _ | _ | n
    · rw [hc] at hcount; omega
    · rw [hc] at hcount; omega
    · rfl

/-- C9 witness: a two-cell piece covering two own cells on a three-by-one
board is rejected with MultipleContacts. -/
theorem validate_placement_no_collision_with_self_witness :
    validate_placement ⟨1, ⟨3, 1, [[.Player1, .Player1, .Empty]], rfl,
      by decide, by decide, by decide⟩, shape2⟩ ⟨0, 0⟩ =
      .error .MultipleContacts :=
  (validate_placement_no_collision_with_self _ ⟨0, 0⟩).2 (by decide)
    (by decide) (by decide) (by decide)

/-- C7: selecting from an empty candidate list yields no selection for
every strategy. -/
theorem select_move_empty_none (strategy : AIStrategy) (gs : GameState) :
    select_move [] gs strategy = none := by
  cases strategy <;> rfl

/-- C6: the default AdvancedBalanced score is the fixed linear
combination 10 cells_added + 1.5 flood_fill + 2 weak + 1.2 density +
0.5 edge, where the flood-fill term is the reachable count times 2.5. -/
theorem advanced_score_formula (pl : Placement) (gs : GameState) :
    advanced_score pl gs =
      (pl.cells_added : ℚ) * 10 +
      1.5 * ((flood_fill_reachable
        (markPositions gs.grid pl.get_absolute_positions)
        pl.get_absolute_positions : ℚ) * 2.5) +
      2 * detect_weak_positions pl gs +
      1.2 * analyze_density pl gs +
      0.5 * analyze_edge_control pl gs.grid := by
  simp only [advanced_score, analyze_flood_fill]
  ring

/-- C8: a second get_or_compute with the same key within a batch returns
the first computed value and leaves the cache unchanged (the second
closure is never used); a fresh key invokes its closure; after clear the
closure is invoked again. -/
theorem cache_get_or_compute_spec (c : FloodFillCache) (k : Nat × Nat)
    (f g : Unit → Nat) :
    ((c.get_or_compute k f).2.get_or_compute k g).1 = (c.get_or_compute k f).1 ∧
    ((c.get_or_compute k f).2.get_or_compute k g).2 = (c.get_or_compute k f).2 ∧
    (c.lookup k = none → (c.get_or_compute k f).1 = f ()) ∧
    (((c.get_or_compute k f).2.clear).get_or_compute k g).1 = g () := by
  rcases h : c.lookup k with _ | v
  · have e1 : c.get_or_compute k f = (f (), ⟨(k, f ()) :: c.cache⟩) := by
      simp only [FloodFillCache.get_or_compute, h]
    have e2 : FloodFillCache.lookup ⟨(k, f ()) :: c.cache⟩ k = some (f ()) := by
      simp [FloodFillCache.lookup, List.find?]
    have e3 : FloodFillCache.get_or_compute ⟨(k, f ()) :: c.cache⟩ k g =
        (f (), ⟨(k, f ()) :: c.cache⟩) := by
      simp only [FloodFillCache.get_or_compute, e2]
    have e4 : (FloodFillCache.clear ⟨(k, f ()) :: c.cache⟩).get_or_compute k g =
        (g (), ⟨[(k, g ())]⟩) := by
      simp [FloodFillCache.clear, FloodFillCache.get_or_compute,
        FloodFillCache.lookup, List.find?]
    rw [e1]
    exact ⟨by rw [e3], by rw [e3], fun _ => rfl, by rw [e4]⟩
  · have e1 : c.get_or_compute k f = (v, c) := by
      simp only [FloodFillCache.get_or_compute, h]
    have e3 : c.get_or_compute k g = (v, c) := by
      simp only [FloodFillCache.get_or_compute, h]
    rw [e1]
    refine ⟨by rw [e3], by rw [e3], fun hnone => ?_, ?_⟩
    · cases hnone
    · simp [FloodFillCache.clear, FloodFillCache.get_or_compute,
        FloodFillCache.lookup, List.find?]

/-- C8 witness: on the empty cache, key (1,2) computes 42, a repeated
query returns 42 without invoking the second closure. -/
theorem cache_get_or_compute_spec_witness :
    (FloodFillCache.new.get_or_compute (1, 2) (fun _ => 42)).1 =
      (fun _ : Unit => 42) () :=
  (cache_get_or_compute_spec FloodFillCache.new (1, 2) (fun _ => 42)
    (fun _ => 999)).2.2.1 rfl

theorem foldl_max_decomp {α β : Type} [LinearOrder β] (f : α → β) :
    ∀ (xs : List α) (x : α), ∃ l1 l2,
      x :: xs = l1 ++
        (xs.foldl (fun acc y => if f y < f acc then acc else y) x) :: l2 ∧
      (∀ a ∈ l1,
        f a ≤ f (xs.foldl (fun acc y => if f y < f acc then acc else y) x)) ∧
      (∀ a ∈ l2,
        f a < f (xs.foldl (fun acc y => if f y < f acc then acc else y) x)) := by
  intro xs
  induction xs with
  | nil => intro x; exact ⟨[], [], rfl, by simp, by simp⟩
  | cons y ys ih =>
    intro x
    rw [List.foldl_cons]
    by_cases hxy : f y < f x
    · rw [if_pos hxy]
      obtain ⟨l1, l2, heq, h1, h2⟩ := ih x
      set m := ys.foldl (fun acc y => if f y < f acc then acc else y) x with hm
      cases l1 with
      | nil =>
        rw [List.nil_append] at heq
        have hx : x = m := (List.cons.inj heq).1
        have hys : ys = l2 := (List.cons.inj heq).2
        refine ⟨[], y :: l2, ?_, by simp, ?_⟩
        · rw [List.nil_append, ← hx, ← hys]
        · intro a ha
          rcases List.mem_cons.mp ha with rfl | ha2
          · rw [← hx]; exact hxy
          · exact h2 a ha2
      | cons b t =>
        rw [List.cons_append] at heq
        have hb : x = b := (List.cons.inj heq).1
        have hrest : ys = t ++ m :: l2 := (List.cons.inj heq).2
        have hbm : f x ≤ f m := by rw [hb]; exact h1 b (List.mem_cons_self b t)
        refine ⟨x :: y :: t, l2, ?_, ?_, h2⟩
        · rw [List.cons_append, List.cons_append, ← hrest]
        · intro a ha
          rcases List.mem_cons.mp ha with rfl | ha2
          · exact hbm
          · rcases List.mem_cons.mp ha2 with rfl | ha3
            · exact le_of_lt (lt_of_lt_of_le hxy hbm)
            · exact h1 a (List.mem_cons_of_mem b ha3)
    · rw [if_neg hxy]
      obtain ⟨l1, l2, heq, h1, h2⟩ := ih y
      set m := ys.foldl (fun acc y => if f y < f acc then acc else y) y with hm
      have hym : f y ≤ f m := by
        cases l1 with
        | nil =>
          rw [List.nil_append] at heq
          exact le_of_eq (congrArg f (List.cons.inj heq).1)
        | cons b t =>
          rw [List.cons_append] at heq
          have hb : y = b := (List.cons.inj heq).1
          rw [hb]; exact h1 b (List.mem_cons_self b t)
      refine ⟨x :: l1, l2, ?_, ?_, h2⟩
      · rw [List.cons_append, ← heq]
      · intro a ha
        rcases List.mem_cons.mp ha with rfl | ha2
        · exact (le_of_not_lt hxy).trans hym
        · exact h1 a ha2

theorem rustMaxBy_decomp {α β : Type} [LinearOrder β] (f : α → β)
    (l : List α) (m : α) (h : rustMaxBy f l = some m) :
    ∃ l1 l2, l = l1 ++ m :: l2 ∧ (∀ a ∈ l1, f a ≤ f m) ∧
      (∀ a ∈ l2, f a < f m) := by
  cases l with
  | nil => cases h
  | cons x xs =>
    have hm : xs.foldl (fun acc y => if f y < f acc then acc else y) x = m :=
      Option.some.inj h
    obtain ⟨l1, l2, heq, h1, h2⟩ := foldl_max_decomp f xs x
    rw [hm] at heq h1 h2
    exact ⟨l1, l2, heq, h1, h2⟩

/-- C2 (amended): for every strategy other than Evaluator, the selected
placement is the last candidate attaining the maximum score: every
earlier candidate scores at most its score and every later candidate
scores strictly less.  (Evaluator instead stable-sorts descending and
takes the head, which is the earliest maximum; see the counterexample.) -/
theorem select_move_ties_pick_last (strategy : AIStrategy)
    (hs : strategy ≠ .Evaluator) (gs : GameState) (ps : List Placement)
    (m : Placement) (h : select_move ps gs strategy = some m) :
    ∃ l1 l2, ps = l1 ++ m :: l2 ∧
      (∀ a ∈ l1, score_of strategy gs a ≤ score_of strategy gs m) ∧
      (∀ a ∈ l2, score_of strategy gs a < score_of strategy gs m) := by
  cases strategy with
  | Evaluator => exact absurd rfl hs
  | GreedyExpansion =>
    simp only [select_move, greedy_expansion] at h
    split at h
    · cases h
    · obtain ⟨l1, l2, heq, h1, h2⟩ := rustMaxBy_decomp _ _ _ h
      exact ⟨l1, l2, heq,
        fun a ha => Nat.cast_le.mpr (h1 a ha),
        fun a ha => Nat.cast_lt.mpr (h2 a ha)⟩
  | Balanced =>
    simp only [select_move, balanced] at h
    split at h
    · cases h
    · obtain ⟨l1, l2, heq, h1, h2⟩ := rustMaxBy_decomp _ _ _ h
      exact ⟨l1, l2, heq,
        fun a ha => Nat.cast_le.mpr (h1 a ha),
        fun a ha => Nat.cast_lt.mpr (h2 a ha)⟩
  | AggressiveExpansion =>
    simp only [select_move, aggressive_expansion] at h
    split at h
    · cases h
    · exact rustMaxBy_decomp _ _ _ h
  | Opportunistic =>
    simp only [select_move, opportunistic] at h
    split at h
    · cases h
    · exact rustMaxBy_decomp _ _ _ h
  | Defensive =>
    simp only [select_move, defensive] at h
    split at h
    · cases h
    · exact rustMaxBy_decomp _ _ _ h
  | StrategicBlocking =>
    simp only [select_move, strategic_blocking] at h
    split at h
    · cases h
    · exact rustMaxBy_decomp _ _ _ h
  | AdvancedBalanced =>
    simp only [select_move, advanced_balanced] at h
    split at h
    · cases h
    · exact rustMaxBy_decomp _ _ _ h
  | TerritorialControl =>
    simp only [select_move, territorial_control] at h
    split at h
    · cases h
    · exact rustMaxBy_decomp _ _ _ h
  | Default =>
    simp only [select_move, advanced_balanced] at h
    split at h
    · cases h
    · exact rustMaxBy_decomp _ _ _ h

/-- C2 witness: the specification's Balanced tie scenario, candidates
scoring 7 and 7; the later one is selected. -/
theorem select_move_ties_pick_last_witness :
    ∃ l1 l2, [pTieA, pTieB] = l1 ++ pTieB :: l2 ∧
      (∀ a ∈ l1, score_of .Balanced gsE a ≤ score_of .Balanced gsE pTieB) ∧
      (∀ a ∈ l2, score_of .Balanced gsE a < score_of .Balanced gsE pTieB) :=
  select_move_ties_pick_last .Balanced (by decide) gsE [pTieA, pTieB] pTieB rfl

/-- C2 counterexample: under the Evaluator strategy two tied candidates
are resolved to the EARLIER one, refuting the last-wins rule for every
strategy. -/
theorem select_move_evaluator_ties_pick_first :
    select_move [e1, e2] gsE .Evaluator = some e1 ∧
    evaluate_placement e1 gsE = evaluate_placement e2 gsE ∧
    e1.position ≠ e2.position := by
  have hscore : evaluate_placement e2 gsE = evaluate_placement e1 gsE := rfl
  refine ⟨?_, hscore.symm, by decide⟩
  simp [select_move, select_best_placement, rank_placements, sortDesc,
    insertDesc, hscore]

theorem is_valid_iff (g : Grid) (p : Position) :
    g.is_valid p = true ↔ (p.x < g.width ∧ p.y < g.height) := by
  simp [Grid.is_valid]

theorem mem_allPositions (g : Grid) (p : Position) :
    p ∈ allPositions g ↔ (p.x < g.width ∧ p.y < g.height) := by
  simp only [allPositions, List.mem_flatMap, List.mem_map, List.mem_range]
  constructor
  · rintro ⟨y, hy, x, hx, rfl⟩; exact ⟨hx, hy⟩
  · rintro ⟨hx, hy⟩; exact ⟨p.y, hy, p.x, hx, rfl⟩

theorem nodup_allPositions (g : Grid) : (allPositions g).Nodup := by
  rw [allPositions, List.nodup_flatMap]
  constructor
  · intro y _
    exact (List.nodup_range g.width).map_on
      (fun x _ x2 _ h => congrArg Position.x h)
  · have : ∀ (a b : Nat), a ≠ b →
        List.Disjoint ((List.range g.width).map (fun x => (⟨x, a⟩ : Position)))
          ((List.range g.width).map (fun x => (⟨x, b⟩ : Position))) := by
      intro a b hab q hqa hqb
      simp only [List.mem_map, List.mem_range] at hqa hqb
      obtain ⟨x1, _, rfl⟩ := hqa
      obtain ⟨x2, _, h2⟩ := hqb
      exact hab (congrArg Position.y h2).symm
    refine List.Pairwise.imp_of_mem ?_ (List.nodup_range g.height)
    intro a b _ _ hab
    exact this a b hab

theorem length_allPositions (g : Grid) :
    (allPositions g).length = g.width * g.height := by
  rw [allPositions, List.length_flatMap]
  have : (List.range g.height).map
      (List.length ∘ fun y => (List.range g.width).map (fun x => (⟨x, y⟩ : Position))) =
      (List.range g.height).map (fun _ => g.width) := by
    apply List.map_congr_left; intro y _; simp
  rw [this, List.map_const', List.sum_replicate, List.length_range, smul_eq_mul,
    Nat.mul_comm]

theorem nodup_deltaPairs : deltaPairs.Nodup := by decide

theorem mem_deltaPairs (d : Int × Int) :
    d ∈ deltaPairs ↔ (-2 ≤ d.1 ∧ d.1 ≤ 2 ∧ -2 ≤ d.2 ∧ d.2 ≤ 2) := by
  constructor
  · intro h
    simp only [deltaPairs, deltaList, List.mem_flatMap, List.mem_map] at h
    obtain ⟨dx, hdx, dy, hdy, rfl⟩ := h
    simp only [List.mem_cons, List.not_mem_nil, or_false] at hdx hdy
    constructor
    · rcases hdx with rfl | rfl | rfl | rfl | rfl <;> norm_num
    refine ⟨?_, ?_, ?_⟩
    · rcases hdx with rfl | rfl | rfl | rfl | rfl <;> norm_num
    · rcases hdy with rfl | rfl | rfl | rfl | rfl <;> norm_num
    · rcases hdy with rfl | rfl | rfl | rfl | rfl <;> norm_num
  · rintro ⟨h1, h2, h3, h4⟩
    simp only [deltaPairs, deltaList, List.mem_flatMap, List.mem_map]
    refine ⟨d.1, ?_, d.2, ?_, rfl⟩
    · have : d.1 = -2 ∨ d.1 = -1 ∨ d.1 = 0 ∨ d.1 = 1 ∨ d.1 = 2 := by omega
      rcases this with h | h | h | h | h <;> rw [h] <;> simp
    · have : d.2 = -2 ∨ d.2 = -1 ∨ d.2 = 0 ∨ d.2 = 1 ∨ d.2 = 2 := by omega
      rcases this with h | h | h | h | h <;> rw [h] <;> simp

theorem castAdd_of_valid (cx W : Nat) (d : Int) (hcx : cx < W)
    (hW : W ≤ 2 ^ 31) (hd1 : -2 ≤ d) (hd2 : d ≤ 2)
    (hv : castAdd cx d < W) : (castAdd cx d : Int) = (cx : Int) + d := by
  unfold castAdd at hv ⊢
  omega

theorem castAdd_of_inbounds (cx : Nat) (d : Int) (h0 : 0 ≤ (cx : Int) + d)
    (hlt : (cx : Int) + d < 2 ^ 64) : (castAdd cx d : Int) = (cx : Int) + d := by
  unfold castAdd
  omega

/-- The per-cell neighbourhood count of the density analyzer is exactly
the number of player-1 territory cells within Chebyshev distance 2 of
the center, the center excluded. -/
theorem count_nearby_eq_chebNearbyP1 (g : Grid) (c : Position)
    (hcx : c.x < g.width) (hcy : c.y < g.height)
    (hW : g.width ≤ 2 ^ 31) (hH : g.height ≤ 2 ^ 31) :
    count_nearby_our_territory g c = chebNearbyP1 g c := by
  rw [count_nearby_our_territory, List.countP_eq_length_filter, chebNearbyP1]
  set P := (fun (d : Int × Int) =>
      if d.1 = 0 ∧ d.2 = 0 then false
      else
        g.is_valid ⟨castAdd c.x d.1, castAdd c.y d.2⟩ &&
          (match g.get ⟨castAdd c.x d.1, castAdd c.y d.2⟩ with
           | some CellState.Player1 | some CellState.Player1Last => true
           | _ => false)) with hP
  set Q := (fun (q : Position) =>
      decide (q ≠ c) &&
      decide (max (Nat.dist q.x c.x) (Nat.dist q.y c.y) ≤ 2) &&
      p1At g q) with hQ
  have hmatch : ∀ q : Position,
      (match g.get q with
       | some CellState.Player1 | some CellState.Player1Last => true
       | _ => false) = p1At g q := fun _ => rfl
  have hPchar : ∀ d : Int × Int, P d = true ↔
      (¬(d.1 = 0 ∧ d.2 = 0) ∧
       g.is_valid ⟨castAdd c.x d.1, castAdd c.y d.2⟩ = true ∧
       p1At g ⟨castAdd c.x d.1, castAdd c.y d.2⟩ = true) := by
    intro d
    rw [hP]
    by_cases h0 : d.1 = 0 ∧ d.2 = 0
    · simp [h0]
    · simp [h0, hmatch]
  have key : ∀ q : Position,
      q ∈ (deltaPairs.filter P).map
        (fun d => (⟨castAdd c.x d.1, castAdd c.y d.2⟩ : Position)) ↔
      q ∈ (allPositions g).filter Q := by
    intro q
    simp only [List.mem_map, List.mem_filter]
    constructor
    · rintro ⟨d, ⟨hdmem, hdP⟩, rfl⟩
      obtain ⟨hd1, hd2, hd3, hd4⟩ := (mem_deltaPairs d).mp hdmem
      obtain ⟨h0, hv, hp1⟩ := (hPchar d).mp hdP
      obtain ⟨hvx, hvy⟩ := (is_valid_iff g _).mp hv
      have ex : (castAdd c.x d.1 : Int) = (c.x : Int) + d.1 :=
        castAdd_of_valid c.x g.width d.1 hcx hW hd1 hd2 hvx
      have ey : (castAdd c.y d.2 : Int) = (c.y : Int) + d.2 :=
        castAdd_of_valid c.y g.height d.2 hcy hH hd3 hd4 hvy
      refine ⟨(mem_allPositions g _).mpr ⟨hvx, hvy⟩, ?_⟩
      rw [hQ]
      simp only [Bool.and_eq_true, decide_eq_true_eq]
      refine ⟨⟨?_, ?_⟩, hp1⟩
      · intro hqc
        have hx : castAdd c.x d.1 = c.x := congrArg Position.x hqc
        have hy : castAdd c.y d.2 = c.y := congrArg Position.y hqc
        apply h0
        constructor
        · omega
        · omega
      · simp only [Nat.dist, max_le_iff]
        omega
    · rintro ⟨hqmem, hqQ⟩
      rw [hQ] at hqQ
      simp only [Bool.and_eq_true, decide_eq_true_eq] at hqQ
      obtain ⟨⟨hqc, hcheb⟩, hp1⟩ := hqQ
      obtain ⟨hqx, hqy⟩ := (mem_allPositions g q).mp hqmem
      simp only [Nat.dist, max_le_iff] at hcheb
      refine ⟨((q.x : Int) - c.x, (q.y : Int) - c.y), ⟨?_, ?_⟩, ?_⟩
      · rw [mem_deltaPairs]
        refine ⟨by omega, by omega, by omega, by omega⟩
      · have ex : castAdd c.x ((q.x : Int) - c.x) = q.x := by
          have := castAdd_of_inbounds c.x ((q.x : Int) - c.x) (by omega) (by omega)
          omega
        have ey : castAdd c.y ((q.y : Int) - c.y) = q.y := by
          have := castAdd_of_inbounds c.y ((q.y : Int) - c.y) (by omega) (by omega)
          omega
        rw [hPchar]
        refine ⟨?_, ?_, ?_⟩
        · intro hdz
          apply hqc
          have : q.x = c.x := by omega
          have : q.y = c.y := by omega
          cases q; cases c
          simp_all
        · simp only [ex, ey]
          exact (is_valid_iff g q).mpr ⟨hqx, hqy⟩
        · simp only [ex, ey]
          exact hp1
      · have ex : castAdd c.x ((q.x : Int) - c.x) = q.x := by
          have := castAdd_of_inbounds c.x ((q.x : Int) - c.x) (by omega) (by omega)
          omega
        have ey : castAdd c.y ((q.y : Int) - c.y) = q.y := by
          have := castAdd_of_inbounds c.y ((q.y : Int) - c.y) (by omega) (by omega)
          omega
        cases q
        simp_all
  have inj : ∀ d1 ∈ deltaPairs.filter P, ∀ d2 ∈ deltaPairs.filter P,
      (⟨castAdd c.x d1.1, castAdd c.y d1.2⟩ : Position) =
      (⟨castAdd c.x d2.1, castAdd c.y d2.2⟩ : Position) → d1 = d2 := by
    intro d1 hd1 d2 hd2 heq
    rw [List.mem_filter] at hd1 hd2
    obtain ⟨hm1, hp1'⟩ := hd1
    obtain ⟨hm2, hp2'⟩ := hd2
    obtain ⟨a1, a2, a3, a4⟩ := (mem_deltaPairs d1).mp hm1
    obtain ⟨b1, b2, b3, b4⟩ := (mem_deltaPairs d2).mp hm2
    obtain ⟨-, hv1, -⟩ := (hPchar d1).mp hp1'
    obtain ⟨-, hv2, -⟩ := (hPchar d2).mp hp2'
    obtain ⟨hv1x, hv1y⟩ := (is_valid_iff g _).mp hv1
    obtain ⟨hv2x, hv2y⟩ := (is_valid_iff g _).mp hv2
    have e1x := castAdd_of_valid c.x g.width d1.1 hcx hW a1 a2 hv1x
    have e1y := castAdd_of_valid c.y g.height d1.2 hcy hH a3 a4 hv1y
    have e2x := castAdd_of_valid c.x g.width d2.1 hcx hW b1 b2 hv2x
    have e2y := castAdd_of_valid c.y g.height d2.2 hcy hH b3 b4 hv2y
    have hx : castAdd c.x d1.1 = castAdd c.x d2.1 := congrArg Position.x heq
    have hy : castAdd c.y d1.2 = castAdd c.y d2.2 := congrArg Position.y heq
    have : d1.1 = d2.1 := by omega
    have : d1.2 = d2.2 := by omega
    cases d1; cases d2; simp_all
  have n1 : ((deltaPairs.filter P).map
      (fun d => (⟨castAdd c.x d.1, castAdd c.y d.2⟩ : Position))).Nodup :=
    (nodup_deltaPairs.filter P).map_on inj
  have n2 : ((allPositions g).filter Q).Nodup :=
    (nodup_allPositions g).filter Q
  have hlen : ((deltaPairs.filter P).map
      (fun d => (⟨castAdd c.x d.1, castAdd c.y d.2⟩ : Position))).length =
      ((allPositions g).filter Q).length := by
    apply le_antisymm
    · exact (List.subperm_of_subset n1 (fun a ha => (key a).mp ha)).length_le
    · exact (List.subperm_of_subset n2 (fun a ha => (key a).mpr ha)).length_le
  rw [← hlen, List.length_map]

/-- The accumulator recursion of analyze_density: the fold sums the
weighted per-cell counts over the valid covered cells and counts them. -/
theorem density_fold (gs : GameState) : ∀ (ps : List Position) (a : ℚ) (n : Nat),
    ps.foldl (fun (acc : ℚ × Nat) pos =>
      if gs.grid.is_valid pos then
        (acc.1 + (count_nearby_our_territory gs.grid pos : ℚ) * 0.8, acc.2 + 1)
      else acc) (a, n) =
    (a + ((ps.filter (fun p => gs.grid.is_valid p)).map
        (fun p => (count_nearby_our_territory gs.grid p : ℚ) * 0.8)).sum,
     n + (ps.filter (fun p => gs.grid.is_valid p)).length) := by
  intro ps
  induction ps with
  | nil => intro a n; simp
  | cons p rest ih =>
    intro a n
    rcases hv : gs.grid.is_valid p
    · simp only [List.foldl_cons, hv, Bool.false_eq_true, if_false,
        List.filter_cons, ih]
    · simp only [List.foldl_cons, hv, List.filter_cons, if_true]
      rw [ih]
      simp only [List.map_cons, List.sum_cons, List.length_cons, Prod.mk.injEq]
      constructor
      · ring
      · omega

/-- C5 (amended): analyze_density equals 0.8 times the average, over the
valid covered cells, of the number of player-1 territory cells within
Chebyshev distance 2 (the 5-by-5 square around the cell, center
excluded); the spec's plain average over the Manhattan-distance-2
diamond of the acting player's territory is refuted by the
counterexample below. -/
theorem analyze_density_characterization (pl : Placement) (gs : GameState)
    (hW : gs.grid.width ≤ 2 ^ 31) (hH : gs.grid.height ≤ 2 ^ 31) :
    analyze_density pl gs =
      (if (pl.get_absolute_positions.filter
            (fun p => gs.grid.is_valid p)).length = 0 then 0
       else (4 / 5 : ℚ) *
         (((pl.get_absolute_positions.filter (fun p => gs.grid.is_valid p)).map
            (fun p => (chebNearbyP1 gs.grid p : ℚ))).sum) /
         (((pl.get_absolute_positions.filter
            (fun p => gs.grid.is_valid p)).length : Nat) : ℚ)) := by
  rw [analyze_density]
  have h08 : (0.8 : ℚ) = 4 / 5 := by norm_num
  rw [density_fold gs pl.get_absolute_positions 0.0 0]
  set vc := pl.get_absolute_positions.filter (fun p => gs.grid.is_valid p)
    with hvc
  have hmap : vc.map (fun p => (count_nearby_our_territory gs.grid p : ℚ) * 0.8) =
      vc.map (fun p => (chebNearbyP1 gs.grid p : ℚ) * 0.8) := by
    apply List.map_congr_left
    intro p hp
    rw [hvc, List.mem_filter] at hp
    obtain ⟨hpx, hpy⟩ := (is_valid_iff gs.grid p).mp hp.2
    rw [count_nearby_eq_chebNearbyP1 gs.grid p hpx hpy hW hH]
  rw [hmap]
  rcases Nat.eq_zero_or_pos vc.length with hz | hpos
  · rw [hz]
    simp [List.length_eq_zero.mp hz]
    norm_num
  · have hne : ¬ vc.length = 0 := by omega
    simp only [Nat.zero_add, Rat.zero_add, zero_add, hne, if_false,
      gt_iff_lt, hpos, if_pos]
    rw [List.sum_map_mul_right, h08]
    ring

/-- C5 counterexample: on gsC5 (player 2 acting, validated one-cell
placement at the origin) the analyzer returns 0.8 while the claimed
Manhattan-diamond own-territory average is 1. -/
theorem analyze_density_counterexample :
    validate_placement gsC5 ⟨0, 0⟩ = .ok plC5 ∧
    analyze_density plC5 gsC5 ≠ density_spec_claim plC5 gsC5 := by
  refine ⟨rfl, ?_⟩
  have hcov : plC5.get_absolute_positions = [⟨0, 0⟩] := rfl
  have hval : gsC5.grid.is_valid ⟨0, 0⟩ = true := rfl
  have hcnt : count_nearby_our_territory gsC5.grid ⟨0, 0⟩ = 1 := rfl
  have h1 : analyze_density plC5 gsC5 = 4 / 5 := by
    rw [analyze_density, hcov]
    simp only [List.foldl_cons, List.foldl_nil, hval, if_true, hcnt]
    norm_num
  have hfil : ((allPositions gsC5.grid).filter (fun q =>
      decide (q ≠ (⟨0, 0⟩ : Position)) &&
      decide (manhattan_distance q ⟨0, 0⟩ ≤ 2) && ownAt gsC5 q)).length = 1 := by
    rfl
  have h2 : density_spec_claim plC5 gsC5 = 1 := by
    rw [density_spec_claim, hcov]
    simp only [List.map_cons, List.map_nil, List.length_cons, List.length_nil,
      List.sum_cons, List.sum_nil, hfil]
    norm_num
  rw [h1, h2]
  norm_num

/-- C5 witness: the characterization applied to the same fixture. -/
theorem analyze_density_characterization_witness :
    analyze_density plC5 gsC5 =
      (if (plC5.get_absolute_positions.filter
            (fun p => gsC5.grid.is_valid p)).length = 0 then 0
       else (4 / 5 : ℚ) *
         (((plC5.get_absolute_positions.filter
            (fun p => gsC5.grid.is_valid p)).map
            (fun p => (chebNearbyP1 gsC5.grid p : ℚ))).sum) /
         (((plC5.get_absolute_positions.filter
            (fun p => gsC5.grid.is_valid p)).length : Nat) : ℚ)) :=
  analyze_density_characterization plC5 gsC5 (by decide) (by decide)

theorem visitNeighbor_insert (g : Grid) (v adds : List Position) (cnt : Nat)
    (nb : Position) (c : CellState) (hnotin : nb ∉ v)
    (hval : g.is_valid nb = true) (hc : g.get nb = some c)
    (hpass : passable c = true) :
    visitNeighbor g (v, adds, cnt) nb =
      (nb :: v, (if c = CellState.Empty then adds ++ [nb] else adds),
       (if c = CellState.Empty then cnt + 1 else cnt)) := by
  have hcont : v.contains nb = false := by
    rw [← Bool.not_eq_true]
    intro hcon
    exact hnotin (List.elem_iff.mp hcon)
  simp [visitNeighbor, hcont, hval, hc, hpass, hnotin]

theorem visitNeighbor_skip (g : Grid) (v adds : List Position) (cnt : Nat)
    (nb : Position)
    (h : nb ∈ v ∨ g.is_valid nb = false ∨
      (∀ c, g.get nb = some c → passable c = false)) :
    visitNeighbor g (v, adds, cnt) nb = (v, adds, cnt) := by
  rcases h with hin | hinv | hpass
  · have hcont : v.contains nb = true := List.elem_iff.mpr hin
    rw [visitNeighbor]
    simp only [hcont, Bool.not_true, Bool.false_and, Bool.false_eq_true,
      if_false]
  · rw [visitNeighbor]
    simp only [hinv, Bool.and_false, Bool.false_eq_true, if_false]
  · rcases hget : g.get nb with _ | c
    · rw [visitNeighbor]
      simp only [hget, ite_self]
    · rw [visitNeighbor]
      simp only [hget, hpass c hget, Bool.false_eq_true, if_false, ite_self]

theorem visitFold_spec (g : Grid) : ∀ (ns v adds : List Position) (cnt : Nat),
    ∃ new : List Position,
      (ns.foldl (visitNeighbor g) (v, adds, cnt)).1 = new ++ v ∧
      new.Nodup ∧
      (∀ p ∈ new, p ∉ v ∧ p ∈ ns ∧ g.is_valid p = true ∧
        passableAt g p = true) ∧
      (∃ newAdds : List Position,
        (ns.foldl (visitNeighbor g) (v, adds, cnt)).2.1 = adds ++ newAdds ∧
        newAdds.length ≤ new.length ∧
        (∀ p ∈ newAdds, p ∈ new ∧ g.get p = some CellState.Empty) ∧
        (∀ p ∈ new, g.get p = some CellState.Empty → p ∈ newAdds)) ∧
      (ns.foldl (visitNeighbor g) (v, adds, cnt)).2.2 =
        cnt + new.countP (emptyAt g) ∧
      (∀ p ∈ ns, g.is_valid p = true → passableAt g p = true →
        p ∈ (ns.foldl (visitNeighbor g) (v, adds, cnt)).1) := by
  intro ns
  induction ns with
  | nil =>
    intro v adds cnt
    exact ⟨[], rfl, List.nodup_nil, by simp,
      ⟨[], by simp, by simp, by simp, by simp⟩, by simp, by simp⟩
  | cons nb rest ih =>
    intro v adds cnt
    rw [List.foldl_cons]
    by_cases hin : nb ∈ v
    · rw [visitNeighbor_skip g v adds cnt nb (Or.inl hin)]
      obtain ⟨new, h1, h2, h3, h4, h5, h6⟩ := ih v adds cnt
      refine ⟨new, h1, h2, ?_, h4, h5, ?_⟩
      · intro p hp
        obtain ⟨ha, hb, hc, hd⟩ := h3 p hp
        exact ⟨ha, List.mem_cons_of_mem nb hb, hc, hd⟩
      · intro p hp hv hpa
        rcases List.mem_cons.mp hp with rfl | hp2
        · rw [h1]
          exact List.mem_append_right new hin
        · exact h6 p hp2 hv hpa
    · rcases hval : g.is_valid nb with _ | _
      · rw [visitNeighbor_skip g v adds cnt nb (Or.inr (Or.inl hval))]
        obtain ⟨new, h1, h2, h3, h4, h5, h6⟩ := ih v adds cnt
        refine ⟨new, h1, h2, ?_, h4, h5, ?_⟩
        · intro p hp
          obtain ⟨ha, hb, hc, hd⟩ := h3 p hp
          exact ⟨ha, List.mem_cons_of_mem nb hb, hc, hd⟩
        · intro p hp hv hpa
          rcases List.mem_cons.mp hp with rfl | hp2
          · rw [hval] at hv; cases hv
          · exact h6 p hp2 hv hpa
      · have hget : g.get nb = some ((g.cells.getD nb.y []).getD nb.x .Empty) := by
          rw [Grid.get, if_pos hval]
        set c := (g.cells.getD nb.y []).getD nb.x CellState.Empty with hcdef
        rcases hpass : passable c with _ | _
        · rw [visitNeighbor_skip g v adds cnt nb (Or.inr (Or.inr ?_))]
          swap
          · intro c2 hc2
            rw [hget] at hc2
            rw [← Option.some.inj hc2]
            exact hpass
          obtain ⟨new, h1, h2, h3, h4, h5, h6⟩ := ih v adds cnt
          refine ⟨new, h1, h2, ?_, h4, h5, ?_⟩
          · intro p hp
            obtain ⟨ha, hb, hc, hd⟩ := h3 p hp
            exact ⟨ha, List.mem_cons_of_mem nb hb, hc, hd⟩
          · intro p hp hv hpa
            rcases List.mem_cons.mp hp with rfl | hp2
            · simp only [passableAt, hget] at hpa
              rw [hpa] at hpass
              cases hpass
            · exact h6 p hp2 hv hpa
        · rw [visitNeighbor_insert g v adds cnt nb c hin hval hget hpass]
          by_cases hce : c = CellState.Empty
          · rw [if_pos hce, if_pos hce]
            obtain ⟨new, h1, h2, h3, h4, h5, h6⟩ := ih (nb :: v) (adds ++ [nb]) (cnt + 1)
            have hnbnew : nb ∉ new :=
              fun hmem => (h3 nb hmem).1 (List.mem_cons_self nb v)
            refine ⟨new ++ [nb], ?_, ?_, ?_, ?_, ?_, ?_⟩
            · rw [h1, List.append_assoc, List.singleton_append]
            · exact List.Nodup.append h2 (List.nodup_singleton nb)
                (fun a ha hb => by
                  rw [List.mem_singleton] at hb
                  exact hnbnew (hb ▸ ha))
            · intro p hp
              rcases List.mem_append.mp hp with hp1 | hp1
              · obtain ⟨ha, hb, hc, hd⟩ := h3 p hp1
                exact ⟨fun hv2 => ha (List.mem_cons_of_mem nb hv2),
                  List.mem_cons_of_mem nb hb, hc, hd⟩
              · rw [List.mem_singleton] at hp1
                rw [hp1]
                refine ⟨hin, List.mem_cons_self nb rest, hval, ?_⟩
                simp only [passableAt, hget]
                exact hpass
            · obtain ⟨na, ha1, ha2, ha3, ha4⟩ := h4
              refine ⟨nb :: na, ?_, ?_, ?_, ?_⟩
              · rw [ha1, List.append_assoc, List.singleton_append]
              · rw [List.length_cons, List.length_append, List.length_singleton]
                omega
              · intro p hp
                rcases List.mem_cons.mp hp with rfl | hp2
                · refine ⟨List.mem_append_right new (List.mem_singleton_self p), ?_⟩
                  rw [hget, hce]
                · exact ⟨List.mem_append_left [nb] (ha3 p hp2).1, (ha3 p hp2).2⟩
              · intro p hp hemp
                rcases List.mem_append.mp hp with hp1 | hp1
                · exact List.mem_cons_of_mem nb (ha4 p hp1 hemp)
                · rw [List.mem_singleton] at hp1
                  rw [hp1]
                  exact List.mem_cons_self nb na
            · rw [h5, List.countP_append]
              have hone : List.countP (emptyAt g) [nb] = 1 := by
                simp only [List.countP_cons, List.countP_nil, emptyAt, hget, hce]
                simp
              rw [hone]
              omega
            · intro p hp hv hpa
              rcases List.mem_cons.mp hp with rfl | hp2
              · rw [h1]
                exact List.mem_append_right new (List.mem_cons_self p v)
              · exact h6 p hp2 hv hpa
          · rw [if_neg hce, if_neg hce]
            obtain ⟨new, h1, h2, h3, h4, h5, h6⟩ := ih (nb :: v) adds cnt
            have hnbnew : nb ∉ new :=
              fun hmem => (h3 nb hmem).1 (List.mem_cons_self nb v)
            refine ⟨new ++ [nb], ?_, ?_, ?_, ?_, ?_, ?_⟩
            · rw [h1, List.append_assoc, List.singleton_append]
            · exact List.Nodup.append h2 (List.nodup_singleton nb)
                (fun a ha hb => by
                  rw [List.mem_singleton] at hb
                  exact hnbnew (hb ▸ ha))
            · intro p hp
              rcases List.mem_append.mp hp with hp1 | hp1
              · obtain ⟨ha, hb, hc, hd⟩ := h3 p hp1
                exact ⟨fun hv2 => ha (List.mem_cons_of_mem nb hv2),
                  List.mem_cons_of_mem nb hb, hc, hd⟩
              · rw [List.mem_singleton] at hp1
                rw [hp1]
                refine ⟨hin, List.mem_cons_self nb rest, hval, ?_⟩
                simp only [passableAt, hget]
                exact hpass
            · obtain ⟨na, ha1, ha2, ha3, ha4⟩ := h4
              refine ⟨na, ha1, ?_, ?_, ?_⟩
              · rw [List.length_append, List.length_singleton]
                omega
              · intro p hp
                exact ⟨List.mem_append_left [nb] (ha3 p hp).1, (ha3 p hp).2⟩
              · intro p hp hemp
                rcases List.mem_append.mp hp with hp1 | hp1
                · exact ha4 p hp1 hemp
                · rw [List.mem_singleton] at hp1
                  rw [hp1] at hemp
                  rw [hget] at hemp
                  exact absurd (Option.some.inj hemp) hce
            · rw [h5, List.countP_append]
              have hone : List.countP (emptyAt g) [nb] = 0 := by
                simp only [List.countP_cons, List.countP_nil, emptyAt, hget]
                simp [hce]
              rw [hone]
              omega
            · intro p hp hv hpa
              rcases List.mem_cons.mp hp with rfl | hp2
              · rw [h1]
                exact List.mem_append_right new (List.mem_cons_self p v)
              · exact h6 p hp2 hv hpa

theorem ffLoop_nil (g : Grid) (fuel : Nat) (v : List Position) (cnt : Nat) :
    ffLoop g fuel [] v cnt = (cnt, v) := by
  cases fuel <;> rfl

theorem ffLoop_cons (g : Grid) (fuel : Nat) (pos : Position)
    (rest v : List Position) (cnt : Nat) :
    ffLoop g (fuel + 1) (pos :: rest) v cnt =
      ffLoop g fuel
        (rest ++ ((nbrs pos).foldl (visitNeighbor g) (v, [], cnt)).2.1)
        ((nbrs pos).foldl (visitNeighbor g) (v, [], cnt)).1
        ((nbrs pos).foldl (visitNeighbor g) (v, [], cnt)).2.2 := rfl

theorem validBound (g : Grid) (v : List Position) (hnd : v.Nodup)
    (hval : ∀ p ∈ v, g.is_valid p = true) :
    v.length ≤ g.width * g.height := by
  have hsub : v ⊆ allPositions g := fun p hp =>
    (mem_allPositions g p).mpr ((is_valid_iff g p).mp (hval p hp))
  have := (List.subperm_of_subset hnd hsub).length_le
  rwa [length_allPositions] at this

theorem ffLoop_stable (g : Grid) : ∀ (fuel k : Nat) (q v : List Position)
    (cnt : Nat), v.Nodup → (∀ p ∈ v, g.is_valid p = true) →
    q.length + (g.width * g.height - v.length) ≤ fuel →
    ffLoop g (fuel + k) q v cnt = ffLoop g fuel q v cnt := by
  intro fuel
  induction fuel with
  | zero =>
    intro k q v cnt hnd hval hm
    have hq : q.length = 0 := by omega
    rw [List.length_eq_zero] at hq
    subst hq
    rw [ffLoop_nil, ffLoop_nil]
  | succ f ihf =>
    intro k q v cnt hnd hval hm
    cases q with
    | nil => rw [ffLoop_nil, ffLoop_nil]
    | cons pos rest =>
      have hre : f + 1 + k = (f + k) + 1 := by omega
      rw [hre, ffLoop_cons, ffLoop_cons]
      obtain ⟨new, h1, h2, h3, ⟨na, ha1, ha2, ha3, ha4⟩, h5, h6⟩ :=
        visitFold_spec g (nbrs pos) v [] cnt
      have hdisj : ∀ a ∈ new, a ∉ v := fun a ha => (h3 a ha).1
      have hnd' : ((nbrs pos).foldl (visitNeighbor g) (v, [], cnt)).1.Nodup := by
        rw [h1]
        exact List.Nodup.append h2 hnd hdisj
      have hval' : ∀ p ∈ ((nbrs pos).foldl (visitNeighbor g) (v, [], cnt)).1,
          g.is_valid p = true := by
        rw [h1]
        intro p hp
        rcases List.mem_append.mp hp with hp1 | hp1
        · exact (h3 p hp1).2.2.1
        · exact hval p hp1
      have hlen' : ((nbrs pos).foldl (visitNeighbor g) (v, [], cnt)).1.length =
          new.length + v.length := by
        rw [h1, List.length_append]
      have hbound := validBound g _ hnd' hval'
      rw [hlen'] at hbound
      have hvb := validBound g v hnd hval
      have hq' : (rest ++
          ((nbrs pos).foldl (visitNeighbor g) (v, [], cnt)).2.1).length =
          rest.length + na.length := by
        rw [ha1, List.nil_append, List.length_append]
      refine ihf k _ _ _ hnd' hval' ?_
      rw [hq', hlen']
      simp only [List.length_cons] at hm
      omega

theorem ffLoop_sound (g : Grid) (seeds v0 : List Position) :
    ∀ (fuel : Nat) (q v : List Position) (cnt : Nat),
    v.Nodup → (∀ p ∈ v, g.is_valid p = true) →
    (∀ p ∈ q, Expanded g seeds p) →
    (∀ p ∈ v, p ∈ v0 ∨ (passableAt g p = true ∧
      ∃ r, Expanded g seeds r ∧ p ∈ nbrs r)) →
    cnt + v0.countP (emptyAt g) = v.countP (emptyAt g) →
    (∀ p ∈ v, p ∈ (ffLoop g fuel q v cnt).2) ∧
    (ffLoop g fuel q v cnt).2.Nodup ∧
    (∀ p ∈ (ffLoop g fuel q v cnt).2, g.is_valid p = true) ∧
    (∀ p ∈ (ffLoop g fuel q v cnt).2, p ∈ v0 ∨ (passableAt g p = true ∧
      ∃ r, Expanded g seeds r ∧ p ∈ nbrs r)) ∧
    (ffLoop g fuel q v cnt).1 + v0.countP (emptyAt g) =
      (ffLoop g fuel q v cnt).2.countP (emptyAt g) := by
  intro fuel
  induction fuel with
  | zero =>
    intro q v cnt hnd hval hq hv hcnt
    cases q with
    | nil =>
      rw [ffLoop_nil]
      exact ⟨fun p hp => hp, hnd, hval, hv, hcnt⟩
    | cons pos rest =>
      exact ⟨fun p hp => hp, hnd, hval, hv, hcnt⟩
  | succ f ihf =>
    intro q v cnt hnd hval hq hv hcnt
    cases q with
    | nil =>
      rw [ffLoop_nil]
      exact ⟨fun p hp => hp, hnd, hval, hv, hcnt⟩
    | cons pos rest =>
      rw [ffLoop_cons]
      obtain ⟨new, h1, h2, h3, ⟨na, ha1, ha2, ha3, ha4⟩, h5, h6⟩ :=
        visitFold_spec g (nbrs pos) v [] cnt
      have hpos : Expanded g seeds pos := hq pos (List.mem_cons_self pos rest)
      have hdisj : ∀ a ∈ new, a ∉ v := fun a ha => (h3 a ha).1
      have hnd' : ((nbrs pos).foldl (visitNeighbor g) (v, [], cnt)).1.Nodup := by
        rw [h1]
        exact List.Nodup.append h2 hnd hdisj
      have hval' : ∀ p ∈ ((nbrs pos).foldl (visitNeighbor g) (v, [], cnt)).1,
          g.is_valid p = true := by
        rw [h1]
        intro p hp
        rcases List.mem_append.mp hp with hp1 | hp1
        · exact (h3 p hp1).2.2.1
        · exact hval p hp1
      have hq' : ∀ p ∈ rest ++ ((nbrs pos).foldl (visitNeighbor g)
          (v, [], cnt)).2.1, Expanded g seeds p := by
        intro p hp
        rcases List.mem_append.mp hp with hp1 | hp1
        · exact hq p (List.mem_cons_of_mem pos hp1)
        · rw [ha1, List.nil_append] at hp1
          obtain ⟨hpnew, hpemp⟩ := ha3 p hp1
          obtain ⟨-, hpns, hpval, -⟩ := h3 p hpnew
          exact Expanded.step pos p hpos hpns hpval hpemp
      have hv' : ∀ p ∈ ((nbrs pos).foldl (visitNeighbor g) (v, [], cnt)).1,
          p ∈ v0 ∨ (passableAt g p = true ∧
            ∃ r, Expanded g seeds r ∧ p ∈ nbrs r) := by
        rw [h1]
        intro p hp
        rcases List.mem_append.mp hp with hp1 | hp1
        · obtain ⟨-, hpns, -, hppass⟩ := h3 p hp1
          exact Or.inr ⟨hppass, pos, hpos, hpns⟩
        · exact hv p hp1
      have hcnt' : ((nbrs pos).foldl (visitNeighbor g) (v, [], cnt)).2.2 +
          v0.countP (emptyAt g) =
          ((nbrs pos).foldl (visitNeighbor g) (v, [], cnt)).1.countP
            (emptyAt g) := by
        rw [h5, h1, List.countP_append]
        omega
      obtain ⟨c1, c2, c3, c4, c5⟩ := ihf _ _ _ hnd' hval' hq' hv' hcnt'
      refine ⟨?_, c2, c3, c4, c5⟩
      intro p hp
      apply c1
      rw [h1]
      exact List.mem_append_right new hp

theorem ffInit_fold_spec (g : Grid) : ∀ (seeds q v : List Position),
    (v.Nodup → (seeds.foldl (fun qv p => if g.is_valid p then
      (qv.1 ++ [p], if qv.2.contains p then qv.2 else p :: qv.2) else qv)
      (q, v)).2.Nodup) ∧
    (∀ p, p ∈ (seeds.foldl (fun qv p => if g.is_valid p then
      (qv.1 ++ [p], if qv.2.contains p then qv.2 else p :: qv.2) else qv)
      (q, v)).2 ↔ (p ∈ v ∨ (p ∈ seeds ∧ g.is_valid p = true))) ∧
    (∀ p ∈ (seeds.foldl (fun qv p => if g.is_valid p then
      (qv.1 ++ [p], if qv.2.contains p then qv.2 else p :: qv.2) else qv)
      (q, v)).1, p ∈ q ∨ (p ∈ seeds ∧ g.is_valid p = true)) ∧
    ((seeds.foldl (fun qv p => if g.is_valid p then
      (qv.1 ++ [p], if qv.2.contains p then qv.2 else p :: qv.2) else qv)
      (q, v)).1.length ≤ q.length + seeds.length) ∧
    (∀ p ∈ (seeds.foldl (fun qv p => if g.is_valid p then
      (qv.1 ++ [p], if qv.2.contains p then qv.2 else p :: qv.2) else qv)
      (q, v)).2, p ∈ v ∨ p ∈ (seeds.foldl (fun qv p => if g.is_valid p then
      (qv.1 ++ [p], if qv.2.contains p then qv.2 else p :: qv.2) else qv)
      (q, v)).1) ∧
    (∀ p ∈ q, p ∈ (seeds.foldl (fun qv p => if g.is_valid p then
      (qv.1 ++ [p], if qv.2.contains p then qv.2 else p :: qv.2) else qv)
      (q, v)).1) := by
  intro seeds
  induction seeds with
  | nil =>
    intro q v
    simp only [List.foldl_nil]
    exact ⟨fun h => h, by simp, fun p hp => Or.inl hp, by simp,
      fun p hp => Or.inl hp, fun p hp => hp⟩
  | cons s rest ih =>
    intro q v
    rw [List.foldl_cons]
    rcases hsv : g.is_valid s with _ | _
    · simp only [Bool.false_eq_true, if_false]
      obtain ⟨c1, c2, c3, c4, c5, c6⟩ := ih q v
      refine ⟨c1, ?_, ?_, by have := c4; simp only [List.length_cons]; omega, c5, c6⟩
      · intro p
        rw [c2 p]
        constructor
        · rintro (hp | ⟨hp1, hp2⟩)
          · exact Or.inl hp
          · exact Or.inr ⟨List.mem_cons_of_mem s hp1, hp2⟩
        · rintro (hp | ⟨hp1, hp2⟩)
          · exact Or.inl hp
          · rcases List.mem_cons.mp hp1 with rfl | hp3
            · rw [hsv] at hp2; cases hp2
            · exact Or.inr ⟨hp3, hp2⟩
      · intro p hp
        rcases c3 p hp with hp1 | ⟨hp1, hp2⟩
        · exact Or.inl hp1
        · exact Or.inr ⟨List.mem_cons_of_mem s hp1, hp2⟩
    · simp only [if_true]
      rcases hcont : v.contains s with _ | _
      · have hsnot : s ∉ v := by
          intro hmem
          have hc2 : v.contains s = true := List.elem_iff.mpr hmem
          rw [hc2] at hcont
          cases hcont
        simp only [Bool.false_eq_true, if_false]
        obtain ⟨c1, c2, c3, c4, c5, c6⟩ := ih (q ++ [s]) (s :: v)
        refine ⟨?_, ?_, ?_, ?_, ?_, ?_⟩
        · intro hnd
          exact c1 (List.nodup_cons.mpr ⟨hsnot, hnd⟩)
        · intro p
          rw [c2 p]
          constructor
          · rintro (hp | ⟨hp1, hp2⟩)
            · rcases List.mem_cons.mp hp with rfl | hp3
              · exact Or.inr ⟨List.mem_cons_self p rest, hsv⟩
              · exact Or.inl hp3
            · exact Or.inr ⟨List.mem_cons_of_mem s hp1, hp2⟩
          · rintro (hp | ⟨hp1, hp2⟩)
            · exact Or.inl (List.mem_cons_of_mem s hp)
            · rcases List.mem_cons.mp hp1 with rfl | hp3
              · exact Or.inl (List.mem_cons_self p v)
              · exact Or.inr ⟨hp3, hp2⟩
        · intro p hp
          rcases c3 p hp with hp1 | ⟨hp1, hp2⟩
          · rcases List.mem_append.mp hp1 with hp3 | hp3
            · exact Or.inl hp3
            · rw [List.mem_singleton] at hp3
              subst hp3
              exact Or.inr ⟨List.mem_cons_self p rest, hsv⟩
          · exact Or.inr ⟨List.mem_cons_of_mem s hp1, hp2⟩
        · calc _ ≤ (q ++ [s]).length + rest.length := c4
            _ = q.length + (s :: rest).length := by
              rw [List.length_append, List.length_singleton, List.length_cons]
              omega
        · intro p hp
          rcases c5 p hp with hp1 | hp1
          · rcases List.mem_cons.mp hp1 with rfl | hp3
            · exact Or.inr (c6 p (List.mem_append_right q (List.mem_singleton_self p)))
            · exact Or.inl hp3
          · exact Or.inr hp1
        · intro p hp
          exact c6 p (List.mem_append_left [s] hp)
      · have hsin : s ∈ v := List.elem_iff.mp hcont
        simp only [if_true]
        obtain ⟨c1, c2, c3, c4, c5, c6⟩ := ih (q ++ [s]) v
        refine ⟨c1, ?_, ?_, ?_, ?_, ?_⟩
        · intro p
          rw [c2 p]
          constructor
          · rintro (hp | ⟨hp1, hp2⟩)
            · exact Or.inl hp
            · exact Or.inr ⟨List.mem_cons_of_mem s hp1, hp2⟩
          · rintro (hp | ⟨hp1, hp2⟩)
            · exact Or.inl hp
            · rcases List.mem_cons.mp hp1 with rfl | hp3
              · exact Or.inl hsin
              · exact Or.inr ⟨hp3, hp2⟩
        · intro p hp
          rcases c3 p hp with hp1 | ⟨hp1, hp2⟩
          · rcases List.mem_append.mp hp1 with hp3 | hp3
            · exact Or.inl hp3
            · rw [List.mem_singleton] at hp3
              subst hp3
              exact Or.inr ⟨List.mem_cons_self p rest, hsv⟩
          · exact Or.inr ⟨List.mem_cons_of_mem s hp1, hp2⟩
        · calc _ ≤ (q ++ [s]).length + rest.length := c4
            _ = q.length + (s :: rest).length := by
              rw [List.length_append, List.length_singleton, List.length_cons]
              omega
        · intro p hp
          exact c5 p hp
        · intro p hp
          exact c6 p (List.mem_append_left [s] hp)

theorem ffInit_facts (g : Grid) (seeds : List Position) :
    (ffInit g seeds).2.Nodup ∧
    (∀ p, p ∈ (ffInit g seeds).2 ↔ (p ∈ seeds ∧ g.is_valid p = true)) ∧
    (∀ p ∈ (ffInit g seeds).1, p ∈ seeds ∧ g.is_valid p = true) ∧
    (ffInit g seeds).1.length ≤ seeds.length ∧
    (∀ p ∈ (ffInit g seeds).2, p ∈ (ffInit g seeds).1) := by
  obtain ⟨c1, c2, c3, c4, c5, c6⟩ := ffInit_fold_spec g seeds [] []
  refine ⟨c1 List.nodup_nil, ?_, ?_, by rw [ffInit]; simpa using c4, ?_⟩
  · intro p
    rw [ffInit, c2 p]
    simp
  · intro p hp
    rcases c3 p hp with hp1 | hp1
    · cases hp1
    · exact hp1
  · intro p hp
    rcases c5 p hp with hp1 | hp1
    · cases hp1
    · exact hp1

/-- C10: the bounded flood fill agrees with the unbounded one whenever
the iteration budget is at least the cell count plus the number of start
positions, because the loop dequeues fewer elements than that. -/
theorem flood_fill_bounded_eq_reachable (g : Grid) (seeds : List Position)
    (max_iterations : Nat)
    (h : g.width * g.height + seeds.length ≤ max_iterations) :
    flood_fill_bounded g seeds max_iterations = flood_fill_reachable g seeds := by
  obtain ⟨hnd, hmem, hqm, hqlen, hsub⟩ := ffInit_facts g seeds
  have hval : ∀ p ∈ (ffInit g seeds).2, g.is_valid p = true :=
    fun p hp => ((hmem p).mp hp).2
  have key : ∀ fuel,
      (ffInit g seeds).1.length +
        (g.width * g.height - (ffInit g seeds).2.length) ≤ fuel →
      ffLoop g fuel (ffInit g seeds).1 (ffInit g seeds).2 0 =
      ffLoop g ((ffInit g seeds).1.length +
        (g.width * g.height - (ffInit g seeds).2.length))
        (ffInit g seeds).1 (ffInit g seeds).2 0 := by
    intro fuel hf
    obtain ⟨k, hk⟩ := Nat.exists_eq_add_of_le hf
    rw [hk]
    exact ffLoop_stable g _ k _ _ _ hnd hval le_rfl
  rw [flood_fill_bounded, flood_fill_reachable, ffRun]
  rw [key max_iterations (by omega), key (seeds.length + g.width * g.height)
    (by omega)]

/-- C10 witness: on the three-by-one board a budget of 100 reproduces the
unbounded traversal. -/
theorem flood_fill_bounded_eq_reachable_witness :
    flood_fill_bounded g3 [⟨0, 0⟩] 100 = flood_fill_reachable g3 [⟨0, 0⟩] :=
  flood_fill_bounded_eq_reachable g3 [⟨0, 0⟩] 100 (by decide)

theorem Grid.set_width (g : Grid) (p : Position) (s : CellState) :
    (g.set p s).width = g.width := by
  rw [Grid.set]
  split <;> rfl

theorem Grid.set_height (g : Grid) (p : Position) (s : CellState) :
    (g.set p s).height = g.height := by
  rw [Grid.set]
  split <;> rfl

theorem Grid.is_valid_set (g : Grid) (p : Position) (s : CellState)
    (q : Position) : (g.set p s).is_valid q = g.is_valid q := by
  rw [Grid.is_valid, Grid.is_valid, Grid.set_width, Grid.set_height]

theorem Grid.get_set_self (g : Grid) (p : Position) (s : CellState)
    (h : g.is_valid p = true) : (g.set p s).get p = some s := by
  obtain ⟨hx, hy⟩ := (is_valid_iff g p).mp h
  have hylen : p.y < g.cells.length := by rw [g.hrows]; exact hy
  have hrow : (g.cells.getD p.y []).length = g.width := by
    rw [List.getD_eq_getElem _ _ hylen]
    exact g.hcols _ (List.getElem_mem hylen)
  rw [Grid.set, dif_pos ⟨hx, hy⟩, Grid.get]
  have hv : Grid.is_valid
      { width := g.width, height := g.height,
        cells := g.cells.set p.y ((g.cells.getD p.y []).set p.x s),
        hrows := by rw [List.length_set]; exact g.hrows
        hcols := by
          intro r hr
          rcases List.mem_or_eq_of_mem_set hr with hmem | heq
          · exact g.hcols r hmem
          · subst heq
            rw [List.length_set]
            rw [List.getD_eq_getElem _ _ hylen]
            exact g.hcols _ (List.getElem_mem hylen)
        hwidth := g.hwidth
        hheight := g.hheight } p = true := by
    rw [Grid.is_valid]
    simp [hx, hy]
  rw [if_pos hv]
  congr 1
  show ((g.cells.set p.y ((g.cells.getD p.y []).set p.x s)).getD p.y
    []).getD p.x CellState.Empty = s
  have houter : (g.cells.set p.y ((g.cells.getD p.y []).set p.x s)).getD p.y
      [] = (g.cells.getD p.y []).set p.x s := by
    rw [List.getD_eq_getElem _ _
      (show p.y < (g.cells.set p.y ((g.cells.getD p.y []).set p.x s)).length
        by rw [List.length_set]; exact hylen)]
    exact List.getElem_set_self _
  rw [houter]
  rw [List.getD_eq_getElem _ _
    (show p.x < ((g.cells.getD p.y []).set p.x s).length
      by rw [List.length_set, hrow]; exact hx)]
  exact List.getElem_set_self _

theorem Grid.get_set_ne (g : Grid) (p : Position) (s : CellState)
    (q : Position) (h : q ≠ p) : (g.set p s).get q = g.get q := by
  by_cases hvp : p.x < g.width ∧ p.y < g.height
  · rw [Grid.set, dif_pos hvp]
    rcases hvq : g.is_valid q with _ | _
    · have hvq2 : Grid.is_valid
          { width := g.width, height := g.height,
            cells := g.cells.set p.y ((g.cells.getD p.y []).set p.x s),
            hrows := by rw [List.length_set]; exact g.hrows
            hcols := by
              intro r hr
              rcases List.mem_or_eq_of_mem_set hr with hmem | heq
              · exact g.hcols r hmem
              · subst heq
                rw [List.length_set]
                have hylen : p.y < g.cells.length := by
                  rw [g.hrows]; exact hvp.2
                rw [List.getD_eq_getElem _ _ hylen]
                exact g.hcols _ (List.getElem_mem hylen)
            hwidth := g.hwidth
            hheight := g.hheight } q = false := by
        rw [Grid.is_valid] at hvq ⊢
        exact hvq
      rw [Grid.get, Grid.get, hvq, hvq2]
      simp
    · obtain ⟨hqx, hqy⟩ := (is_valid_iff g q).mp hvq
      have hylen : p.y < g.cells.length := by rw [g.hrows]; exact hvp.2
      have hqylen : q.y < g.cells.length := by rw [g.hrows]; exact hqy
      have hvq2 : Grid.is_valid
          { width := g.width, height := g.height,
            cells := g.cells.set p.y ((g.cells.getD p.y []).set p.x s),
            hrows := by rw [List.length_set]; exact g.hrows
            hcols := by
              intro r hr
              rcases List.mem_or_eq_of_mem_set hr with hmem | heq
              · exact g.hcols r hmem
              · subst heq
                rw [List.length_set]
                rw [List.getD_eq_getElem _ _ hylen]
                exact g.hcols _ (List.getElem_mem hylen)
            hwidth := g.hwidth
            hheight := g.hheight } q = true := by
        rw [Grid.is_valid]
        simp [hqx, hqy]
      rw [Grid.get, Grid.get, hvq, hvq2]
      simp only [if_true]
      congr 1
      show ((g.cells.set p.y ((g.cells.getD p.y []).set p.x s)).getD q.y
        []).getD q.x CellState.Empty =
        (g.cells.getD q.y []).getD q.x CellState.Empty
      by_cases hyy : q.y = p.y
      · have hxx : q.x ≠ p.x := by
          intro hxeq
          apply h
          cases q; cases p
          simp_all
        rw [hyy]
        have houter : (g.cells.set p.y ((g.cells.getD p.y []).set p.x
            s)).getD p.y [] = (g.cells.getD p.y []).set p.x s := by
          rw [List.getD_eq_getElem _ _
            (show p.y <
              (g.cells.set p.y ((g.cells.getD p.y []).set p.x s)).length
              by rw [List.length_set]; exact hylen)]
          exact List.getElem_set_self _
        rw [houter]
        have hrow : (g.cells.getD p.y []).length = g.width := by
          rw [List.getD_eq_getElem _ _ hylen]
          exact g.hcols _ (List.getElem_mem hylen)
        have hqxlen : q.x < ((g.cells.getD p.y []).set p.x s).length := by
          rw [List.length_set, hrow]; exact hqx
        rw [List.getD_eq_getElem _ _ hqxlen]
        rw [List.getElem_set_ne (fun hc => hxx hc.symm) hqxlen]
        exact (List.getD_eq_getElem _ _ (by rw [hrow]; exact hqx)).symm
      · have houter : (g.cells.set p.y ((g.cells.getD p.y []).set p.x
            s)).getD q.y [] = g.cells.getD q.y [] := by
          rw [List.getD_eq_getElem _ _
            (show q.y <
              (g.cells.set p.y ((g.cells.getD p.y []).set p.x s)).length
              by rw [List.length_set]; exact hqylen)]
          rw [List.getElem_set_ne (fun hc => hyy hc.symm)
            (by rw [List.length_set]; exact hqylen)]
          rw [List.getD_eq_getElem _ _ hqylen]
        rw [houter]
  · rw [Grid.set, dif_neg hvp]

theorem markPositions_is_valid : ∀ (ps : List Position) (g : Grid)
    (p : Position), (markPositions g ps).is_valid p = g.is_valid p := by
  intro ps
  induction ps with
  | nil => intro g p; rfl
  | cons a rest ih =>
    intro g p
    rw [show markPositions g (a :: rest) =
      markPositions (if g.is_valid a then g.set a CellState.Player1Last
        else g) rest from rfl]
    rw [ih]
    by_cases hv : g.is_valid a = true
    · rw [if_pos hv, Grid.is_valid_set]
    · rw [if_neg hv]

theorem markPositions_get : ∀ (ps : List Position) (g : Grid) (p : Position),
    (markPositions g ps).get p =
      (if p ∈ ps ∧ g.is_valid p = true then some CellState.Player1Last
       else g.get p) := by
  intro ps
  induction ps with
  | nil =>
    intro g p
    simp [markPositions]
  | cons a rest ih =>
    intro g p
    rw [show markPositions g (a :: rest) =
      markPositions (if g.is_valid a then g.set a CellState.Player1Last
        else g) rest from rfl]
    rw [ih]
    by_cases hva : g.is_valid a = true
    · rw [if_pos hva]
      by_cases hpr : p ∈ rest ∧ (g.set a CellState.Player1Last).is_valid p = true
      · rw [if_pos hpr]
        rw [Grid.is_valid_set] at hpr
        rw [if_pos ⟨List.mem_cons_of_mem a hpr.1, hpr.2⟩]
      · rw [if_neg hpr]
        rw [Grid.is_valid_set] at hpr
        by_cases hpa : p = a
        · subst hpa
          rw [Grid.get_set_self g p CellState.Player1Last hva]
          rw [if_pos ⟨List.mem_cons_self p rest, hva⟩]
        · rw [Grid.get_set_ne g a CellState.Player1Last p hpa]
          rw [if_neg (fun hc => hpr ⟨?_, hc.2⟩)]
          rcases List.mem_cons.mp hc.1 with h1 | h1
          · exact absurd h1 hpa
          · exact h1
    · rw [if_neg hva]
      by_cases hpr : p ∈ rest ∧ g.is_valid p = true
      · rw [if_pos hpr, if_pos ⟨List.mem_cons_of_mem a hpr.1, hpr.2⟩]
      · rw [if_neg hpr]
        by_cases hpc : p ∈ a :: rest ∧ g.is_valid p = true
        · rcases List.mem_cons.mp hpc.1 with h1 | h1
          · subst h1
            exact absurd hpc.2 hva
          · exact absurd ⟨h1, hpc.2⟩ hpr
        · rw [if_neg hpc]

theorem passableAt_cases (g : Grid) (p : Position)
    (h : passableAt g p = true) :
    g.get p = some CellState.Empty ∨ g.get p = some CellState.Player1 ∨
      g.get p = some CellState.Player1Last := by
  rw [passableAt] at h
  rcases hget : g.get p with _ | c
  · rw [hget] at h; cases h
  · rw [hget] at h
    cases c
    · exact Or.inl rfl
    · exact Or.inr (Or.inl rfl)
    · simp [passable] at h
    · exact Or.inr (Or.inr rfl)
    · simp [passable] at h

/-- C3 (amended): analyze_flood_fill marks the valid covered cells as
Player1Last — for both acting players, not the acting player's own
last-move state — and its traversal visits only start cells, empty cells
and PLAYER-1 cells (each distinct empty cell counted exactly once); for
player 2 this means the traversal runs through the opponent's cells, as
the counterexample shows. -/
theorem analyze_flood_fill_characterization (pl : Placement)
    (gs : GameState) :
    (analyze_flood_fill pl gs =
      ((flood_fill_reachable (markPositions gs.grid pl.get_absolute_positions)
        pl.get_absolute_positions : Nat) : ℚ) * 2.5) ∧
    (∀ p ∈ pl.get_absolute_positions, gs.grid.is_valid p = true →
      (markPositions gs.grid pl.get_absolute_positions).get p =
        some CellState.Player1Last) ∧
    (∀ p ∈ flood_fill_visited
        (markPositions gs.grid pl.get_absolute_positions)
        pl.get_absolute_positions,
      (markPositions gs.grid pl.get_absolute_positions).get p =
        some CellState.Empty ∨
      (markPositions gs.grid pl.get_absolute_positions).get p =
        some CellState.Player1 ∨
      (markPositions gs.grid pl.get_absolute_positions).get p =
        some CellState.Player1Last) ∧
    (flood_fill_visited (markPositions gs.grid pl.get_absolute_positions)
      pl.get_absolute_positions).Nodup ∧
    flood_fill_reachable (markPositions gs.grid pl.get_absolute_positions)
        pl.get_absolute_positions =
      (flood_fill_visited (markPositions gs.grid pl.get_absolute_positions)
        pl.get_absolute_positions).countP
        (emptyAt (markPositions gs.grid pl.get_absolute_positions)) := by
  set tg := markPositions gs.grid pl.get_absolute_positions with htg
  set cov := pl.get_absolute_positions with hcov
  have hmark : ∀ p ∈ cov, gs.grid.is_valid p = true →
      tg.get p = some CellState.Player1Last := by
    intro p hp hv
    rw [htg, markPositions_get]
    rw [if_pos ⟨hp, hv⟩]
  obtain ⟨hnd0, hmem0, hq0, hqlen0, hsub0⟩ := ffInit_facts tg cov
  have hval0 : ∀ p ∈ (ffInit tg cov).2, tg.is_valid p = true :=
    fun p hp => ((hmem0 p).mp hp).2
  have hqexp : ∀ p ∈ (ffInit tg cov).1, Expanded tg cov p := by
    intro p hp
    obtain ⟨hp1, hp2⟩ := hq0 p hp
    exact Expanded.seed p hp1 hp2
  have hv0 : ∀ p ∈ (ffInit tg cov).2, p ∈ (ffInit tg cov).2 ∨
      (passableAt tg p = true ∧ ∃ r, Expanded tg cov r ∧ p ∈ nbrs r) :=
    fun p hp => Or.inl hp
  obtain ⟨c1, c2, c3, c4, c5⟩ := ffLoop_sound tg cov (ffInit tg cov).2
    (cov.length + tg.width * tg.height) (ffInit tg cov).1 (ffInit tg cov).2
    0 hnd0 hval0 hqexp hv0 (Nat.zero_add _)
  have hvis : flood_fill_visited tg cov =
      (ffLoop tg (cov.length + tg.width * tg.height) (ffInit tg cov).1
        (ffInit tg cov).2 0).2 := rfl
  have hrea : flood_fill_reachable tg cov =
      (ffLoop tg (cov.length + tg.width * tg.height) (ffInit tg cov).1
        (ffInit tg cov).2 0).1 := rfl
  have hv0count : (ffInit tg cov).2.countP (emptyAt tg) = 0 := by
    rw [List.countP_eq_zero]
    intro p hp
    obtain ⟨hp1, hp2⟩ := (hmem0 p).mp hp
    have hgv : gs.grid.is_valid p = true := by
      rw [htg, markPositions_is_valid] at hp2
      exact hp2
    rw [emptyAt, hmark p hp1 hgv]
    simp
  refine ⟨rfl, hmark, ?_, ?_, ?_⟩
  · intro p hp
    rw [hvis] at hp
    rcases c4 p hp with hp1 | ⟨hp1, -⟩
    · obtain ⟨hm1, hm2⟩ := (hmem0 p).mp hp1
      have hgv : gs.grid.is_valid p = true := by
        rw [htg, markPositions_is_valid] at hm2
        exact hm2
      exact Or.inr (Or.inr (hmark p hm1 hgv))
    · exact passableAt_cases tg p hp1
  · rw [hvis]
    exact c2
  · rw [hvis, hrea]
    rw [hv0count] at c5
    omega

/-- C3 witness: the characterization applied to the player-1 fixture
marks the covered origin cell as Player1Last. -/
theorem analyze_flood_fill_characterization_witness :
    (markPositions gsA.grid plA.get_absolute_positions).get ⟨0, 0⟩ =
      some CellState.Player1Last :=
  (analyze_flood_fill_characterization plA gsA).2.1 ⟨0, 0⟩ (by decide)
    (by decide)

/-- C3 counterexample: with player 2 acting on the board P2, P1, Empty
the validated placement at the origin is marked Player1Last (not the
acting player's own last-move state) and the traversal visits the
player-1 cell (1,0), which is the acting player's OPPONENT. -/
theorem analyze_flood_fill_counterexample :
    gsC3.player_number = 2 ∧
    validate_placement gsC3 ⟨0, 0⟩ = .ok plC3 ∧
    gsC3.grid.get ⟨1, 0⟩ = some CellState.Player1 ∧
    (⟨1, 0⟩ : Position) ∈ flood_fill_visited
      (markPositions gsC3.grid plC3.get_absolute_positions)
      plC3.get_absolute_positions ∧
    (markPositions gsC3.grid plC3.get_absolute_positions).get ⟨0, 0⟩ =
      some CellState.Player1Last := by
  exact ⟨rfl, rfl, rfl, by decide, rfl⟩

theorem ffLoop_closed (g : Grid) (seeds : List Position) :
    ∀ (fuel : Nat) (q v : List Position) (cnt : Nat),
    v.Nodup → (∀ p ∈ v, g.is_valid p = true) →
    (∀ p ∈ seeds, g.is_valid p = true → p ∈ v) →
    (∀ p ∈ v, p ∉ q → expandable g seeds p →
      ∀ nb ∈ nbrs p, g.is_valid nb = true → passableAt g nb = true →
        nb ∈ v) →
    q.length + (g.width * g.height - v.length) ≤ fuel →
    (∀ p ∈ v, p ∈ (ffLoop g fuel q v cnt).2) ∧
    (∀ p ∈ (ffLoop g fuel q v cnt).2, expandable g seeds p →
      ∀ nb ∈ nbrs p, g.is_valid nb = true → passableAt g nb = true →
        nb ∈ (ffLoop g fuel q v cnt).2) := by
  intro fuel
  induction fuel with
  | zero =>
    intro q v cnt hnd hval hseed hclosed hm
    have hq : q.length = 0 := by omega
    rw [List.length_eq_zero] at hq
    subst hq
    rw [ffLoop_nil]
    exact ⟨fun p hp => hp,
      fun p hp hexp => hclosed p hp (List.not_mem_nil p) hexp⟩
  | succ f ihf =>
    intro q v cnt hnd hval hseed hclosed hm
    cases q with
    | nil =>
      rw [ffLoop_nil]
      exact ⟨fun p hp => hp,
        fun p hp hexp => hclosed p hp (List.not_mem_nil p) hexp⟩
    | cons pos rest =>
      rw [ffLoop_cons]
      obtain ⟨new, h1, h2, h3, ⟨na, ha1, ha2, ha3, ha4⟩, h5, h6⟩ :=
        visitFold_spec g (nbrs pos) v [] cnt
      rw [List.nil_append] at ha1
      have hdisj : ∀ a ∈ new, a ∉ v := fun a ha => (h3 a ha).1
      have hnd' : ((nbrs pos).foldl (visitNeighbor g) (v, [], cnt)).1.Nodup := by
        rw [h1]
        exact List.Nodup.append h2 hnd hdisj
      have hval' : ∀ p ∈ ((nbrs pos).foldl (visitNeighbor g) (v, [], cnt)).1,
          g.is_valid p = true := by
        rw [h1]
        intro p hp
        rcases List.mem_append.mp hp with hp1 | hp1
        · exact (h3 p hp1).2.2.1
        · exact hval p hp1
      have hsubv : ∀ p ∈ v,
          p ∈ ((nbrs pos).foldl (visitNeighbor g) (v, [], cnt)).1 := by
        intro p hp
        rw [h1]
        exact List.mem_append_right new hp
      have hseed' : ∀ p ∈ seeds, g.is_valid p = true →
          p ∈ ((nbrs pos).foldl (visitNeighbor g) (v, [], cnt)).1 :=
        fun p hp hv => hsubv p (hseed p hp hv)
      have hclosed' : ∀ p ∈ ((nbrs pos).foldl (visitNeighbor g)
          (v, [], cnt)).1,
          p ∉ rest ++ ((nbrs pos).foldl (visitNeighbor g) (v, [], cnt)).2.1 →
          expandable g seeds p →
          ∀ nb ∈ nbrs p, g.is_valid nb = true → passableAt g nb = true →
            nb ∈ ((nbrs pos).foldl (visitNeighbor g) (v, [], cnt)).1 := by
        intro p hp hpq hexp nb hnb hnv hnp
        rw [h1] at hp
        rw [ha1] at hpq
        rcases List.mem_append.mp hp with hp1 | hp1
        · exfalso
          rcases hexp with hexp | hexp
          · exact (h3 p hp1).1 (hseed p hexp (h3 p hp1).2.2.1)
          · exact hpq (List.mem_append_right rest (ha4 p hp1 hexp))
        · by_cases hppos : p = pos
          · subst hppos
            exact h6 nb hnb hnv hnp
          · have hpnotq : p ∉ pos :: rest := by
              intro hc
              rcases List.mem_cons.mp hc with hc1 | hc1
              · exact hppos hc1
              · exact hpq (List.mem_append_left _ hc1)
            exact hsubv nb (hclosed p hp1 hpnotq hexp nb hnb hnv hnp)
      have hlen' : ((nbrs pos).foldl (visitNeighbor g) (v, [], cnt)).1.length =
          new.length + v.length := by
        rw [h1, List.length_append]
      have hbound := validBound g _ hnd' hval'
      rw [hlen'] at hbound
      have hm' : (rest ++
          ((nbrs pos).foldl (visitNeighbor g) (v, [], cnt)).2.1).length +
          (g.width * g.height -
            ((nbrs pos).foldl (visitNeighbor g) (v, [], cnt)).1.length) ≤ f := by
        rw [hlen', List.length_append, ha1]
        simp only [List.length_cons] at hm
        omega
      obtain ⟨d1, d2⟩ := ihf _ _ _ hnd' hval' hseed' hclosed' hm'
      exact ⟨fun p hp => d1 p (hsubv p hp), d2⟩

theorem Expanded_valid {g : Grid} {seeds : List Position} {p : Position}
    (h : Expanded g seeds p) : g.is_valid p = true := by
  induction h with
  | seed p hp hv => exact hv
  | step p q hp hq hv he ih => exact hv

theorem Expanded_expandable {g : Grid} {seeds : List Position} {p : Position}
    (h : Expanded g seeds p) : expandable g seeds p := by
  cases h with
  | seed p hp hv => exact Or.inl hp
  | step p q hp hq hv he => exact Or.inr he

theorem Expanded_mono {g : Grid} {S1 S2 : List Position}
    (hs : ∀ p ∈ S1, p ∈ S2) {p : Position} (h : Expanded g S1 p) :
    Expanded g S2 p := by
  induction h with
  | seed p hp hv => exact Expanded.seed p (hs p hp) hv
  | step p q hp hq hv he ih => exact Expanded.step p q ih hq hv he

theorem Expanded_mem_run {g : Grid} {seeds : List Position} {p : Position}
    (h : Expanded g seeds p) : p ∈ flood_fill_visited g seeds := by
  obtain ⟨hnd0, hmem0, hq0, hqlen0, hsub0⟩ := ffInit_facts g seeds
  have hval0 : ∀ x ∈ (ffInit g seeds).2, g.is_valid x = true :=
    fun x hx => ((hmem0 x).mp hx).2
  have hseed0 : ∀ x ∈ seeds, g.is_valid x = true → x ∈ (ffInit g seeds).2 :=
    fun x hx hv => (hmem0 x).mpr ⟨hx, hv⟩
  have hclosed0 : ∀ x ∈ (ffInit g seeds).2, x ∉ (ffInit g seeds).1 →
      expandable g seeds x →
      ∀ nb ∈ nbrs x, g.is_valid nb = true → passableAt g nb = true →
        nb ∈ (ffInit g seeds).2 := by
    intro x hx hxq
    exact absurd (hsub0 x hx) hxq
  have hm0 : (ffInit g seeds).1.length +
      (g.width * g.height - (ffInit g seeds).2.length) ≤
      seeds.length + g.width * g.height := by
    have := hqlen0
    omega
  obtain ⟨d1, d2⟩ := ffLoop_closed g seeds
    (seeds.length + g.width * g.height) (ffInit g seeds).1 (ffInit g seeds).2
    0 hnd0 hval0 hseed0 hclosed0 hm0
  induction h with
  | seed x hx hv => exact d1 x (hseed0 x hx hv)
  | step x y hx hy hv he ih =>
    refine d2 x ih (Expanded_expandable hx) y hy hv ?_
    rw [passableAt, he]
    rfl

/-- C4 (amended): holding the grid truly fixed, the reachable-empty-cell
count of flood_fill_reachable is monotone in the seed set provided the
seeds are non-empty cells (as the covered cells of a placement are after
analyze_flood_fill marks them); for analyze_flood_fill itself, which
additionally overwrites the extra covered cells on the cloned grid, the
count can strictly DECREASE for a superset placement, as the
counterexample shows. -/
theorem flood_fill_reachable_mono (g : Grid) (S1 S2 : List Position)
    (hsub : ∀ p ∈ S1, p ∈ S2)
    (hne : ∀ p ∈ S2, g.is_valid p = true →
      g.get p ≠ some CellState.Empty) :
    flood_fill_reachable g S1 ≤ flood_fill_reachable g S2 := by
  obtain ⟨hnd1, hmem1, hq1, hqlen1, hsub1⟩ := ffInit_facts g S1
  obtain ⟨hnd2, hmem2, hq2, hqlen2, hsub2⟩ := ffInit_facts g S2
  have hval1 : ∀ x ∈ (ffInit g S1).2, g.is_valid x = true :=
    fun x hx => ((hmem1 x).mp hx).2
  have hval2 : ∀ x ∈ (ffInit g S2).2, g.is_valid x = true :=
    fun x hx => ((hmem2 x).mp hx).2
  have hqexp1 : ∀ x ∈ (ffInit g S1).1, Expanded g S1 x := by
    intro x hx
    obtain ⟨hx1, hx2⟩ := hq1 x hx
    exact Expanded.seed x hx1 hx2
  have hqexp2 : ∀ x ∈ (ffInit g S2).1, Expanded g S2 x := by
    intro x hx
    obtain ⟨hx1, hx2⟩ := hq2 x hx
    exact Expanded.seed x hx1 hx2
  obtain ⟨c11, c12, c13, c14, c15⟩ := ffLoop_sound g S1 (ffInit g S1).2
    (S1.length + g.width * g.height) (ffInit g S1).1 (ffInit g S1).2 0
    hnd1 hval1 hqexp1 (fun x hx => Or.inl hx) (Nat.zero_add _)
  obtain ⟨c21, c22, c23, c24, c25⟩ := ffLoop_sound g S2 (ffInit g S2).2
    (S2.length + g.width * g.height) (ffInit g S2).1 (ffInit g S2).2 0
    hnd2 hval2 hqexp2 (fun x hx => Or.inl hx) (Nat.zero_add _)
  have hv0c1 : (ffInit g S1).2.countP (emptyAt g) = 0 := by
    rw [List.countP_eq_zero]
    intro x hx
    obtain ⟨hx1, hx2⟩ := (hmem1 x).mp hx
    have := hne x (hsub x hx1) hx2
    rw [emptyAt]
    simpa using this
  have hv0c2 : (ffInit g S2).2.countP (emptyAt g) = 0 := by
    rw [List.countP_eq_zero]
    intro x hx
    obtain ⟨hx1, hx2⟩ := (hmem2 x).mp hx
    have := hne x hx1 hx2
    rw [emptyAt]
    simpa using this
  have hr1 : flood_fill_reachable g S1 =
      (flood_fill_visited g S1).countP (emptyAt g) := by
    rw [hv0c1] at c15
    have : flood_fill_reachable g S1 + 0 =
        (flood_fill_visited g S1).countP (emptyAt g) := c15
    omega
  have hr2 : flood_fill_reachable g S2 =
      (flood_fill_visited g S2).countP (emptyAt g) := by
    rw [hv0c2] at c25
    have : flood_fill_reachable g S2 + 0 =
        (flood_fill_visited g S2).countP (emptyAt g) := c25
    omega
  rw [hr1, hr2, List.countP_eq_length_filter, List.countP_eq_length_filter]
  have hsubf : (flood_fill_visited g S1).filter (emptyAt g) ⊆
      (flood_fill_visited g S2).filter (emptyAt g) := by
    intro p hp
    rw [List.mem_filter] at hp ⊢
    obtain ⟨hp1, hp2⟩ := hp
    have hemp : g.get p = some CellState.Empty := by
      rw [emptyAt] at hp2
      simpa using hp2
    refine ⟨?_, hp2⟩
    have hpvalid : g.is_valid p = true := c13 p hp1
    rcases c14 p hp1 with hp3 | ⟨hp3, r, hr, hpn⟩
    · obtain ⟨hp4, hp5⟩ := (hmem1 p).mp hp3
      exact absurd hemp (hne p (hsub p hp4) hp5)
    · have hexp1 : Expanded g S1 p := Expanded.step r p hr hpn hpvalid hemp
      exact Expanded_mem_run (Expanded_mono hsub hexp1)
  have hndf : ((flood_fill_visited g S1).filter (emptyAt g)).Nodup :=
    c12.filter (emptyAt g)
  exact (List.subperm_of_subset hndf hsubf).length_le

/-- C4 witness: on a board with two own cells, growing the seed set from
one non-empty cell to two weakly increases the reachable count. -/
theorem flood_fill_reachable_mono_witness :
    flood_fill_reachable
      ⟨3, 1, [[.Player1, .Player1, .Empty]], rfl, by decide, by decide,
        by decide⟩ [⟨0, 0⟩] ≤
    flood_fill_reachable
      ⟨3, 1, [[.Player1, .Player1, .Empty]], rfl, by decide, by decide,
        by decide⟩ [⟨0, 0⟩, ⟨1, 0⟩] :=
  flood_fill_reachable_mono _ [⟨0, 0⟩] [⟨0, 0⟩, ⟨1, 0⟩] (by decide)
    (by decide)

/-- C4 counterexample: two validated placements on the same board whose
covered sets are related by inclusion, where the superset placement
reaches STRICTLY FEWER empty cells (its extra covered cell is overwritten
before the traversal and is never counted). -/
theorem flood_fill_superset_counterexample :
    validate_placement gsA ⟨0, 0⟩ = .ok plA ∧
    validate_placement gsB ⟨0, 0⟩ = .ok plB ∧
    (∀ p ∈ plA.get_absolute_positions, p ∈ plB.get_absolute_positions) ∧
    flood_fill_reachable (markPositions gsB.grid plB.get_absolute_positions)
        plB.get_absolute_positions <
      flood_fill_reachable (markPositions gsA.grid plA.get_absolute_positions)
        plA.get_absolute_positions ∧
    analyze_flood_fill plB gsB < analyze_flood_fill plA gsA := by
  have cA : flood_fill_reachable
      (markPositions gsA.grid plA.get_absolute_positions)
      plA.get_absolute_positions = 2 := by decide
  have cB : flood_fill_reachable
      (markPositions gsB.grid plB.get_absolute_positions)
      plB.get_absolute_positions = 1 := by decide
  refine ⟨rfl, rfl, by decide, ?_, ?_⟩
  · rw [cA, cB]
    omega
  · have hA : analyze_flood_fill plA gsA =
        ((flood_fill_reachable
          (markPositions gsA.grid plA.get_absolute_positions)
          plA.get_absolute_positions : Nat) : ℚ) * 2.5 := rfl
    have hB : analyze_flood_fill plB gsB =
        ((flood_fill_reachable
          (markPositions gsB.grid plB.get_absolute_positions)
          plB.get_absolute_positions : Nat) : ℚ) * 2.5 := rfl
    rw [hA, hB, cA, cB]
    norm_num

end Filler
